import Mathlib

/-!
Shallow embedding of the process-scheduler simulator (sched3.c and pa2.c).

Processes, resources and the three queues (fork queue, ready queue,
per-resource wait queues) are modelled explicitly.  The intrusive
`list_head` links of the C code become `List Nat` queues holding pids,
with the process records kept in a registry `SimState.procs`; moving a
node between lists becomes erasing / appending its pid.  C `assert`
failures (abort) are modelled by `Option`/`StepOut.fail` outcomes.
`MAX_PRIO` comes from a header that is not part of the two source files,
so every definition that reads it takes it as an explicit `maxPrio`
argument.
-/

namespace Sched

/-- Process status, in the order of the C enum (`RDY`, `RUN`, `WAT`, `EXT`);
`memset 0` of a fresh process record yields `READY`. -/
inductive Status where
  | READY
  | RUNNING
  | WAIT
  | EXIT
deriving DecidableEq, Repr

/-- One `struct resource_schedule` entry of an acquisition plan:
acquire resource `resource_id` when the process age equals `acq_at`,
hold for `duration` ticks. -/
structure RS where
  resource_id : Nat
  acq_at : Nat
  duration : Nat
deriving DecidableEq, Repr

/-- The `struct process` record: pid, lifespan, age, current and original
priority, start tick, status, the pending acquisition plan
(`__resources_to_acquire`) and the held entries (`__resources_holding`). -/
structure Proc where
  pid : Nat
  lifespan : Nat
  age : Nat
  prio : Nat
  prio_orig : Nat
  starts_at : Nat
  status : Status
  to_acquire : List RS
  holding : List RS
deriving DecidableEq, Repr

/-- The `struct resource` record: optional owner (a pid) and the wait
queue of blocked pids, in blocking order (head = earliest blocked). -/
structure Res where
  owner : Option Nat
  waitqueue : List Nat
deriving DecidableEq, Repr

/-- One logged simulator event, tagged with the tick at which the
corresponding `__print_event` / `idle` line is emitted. -/
inductive Event where
  | forked (tick pid : Nat)
  | run (tick pid : Nat)
  | blocked (tick pid : Nat)
  | acquired (tick pid rid : Nat)
  | released (tick pid rid : Nat)
  | exited (tick pid : Nat)
  | idle (tick : Nat)
deriving DecidableEq, Repr

/-- The whole mutable simulator state: the registry of live process
records, the fork and ready queues (as pid lists), the resource table,
the `current` pointer, the tick counter, the Round-Robin helper counter
`ticks_cnt` (a C global starting at -1), and the event log. -/
structure SimState where
  procs : List Proc
  forkqueue : List Nat
  readyqueue : List Nat
  resources : List Res
  current : Option Nat
  ticks : Nat
  ticks_cnt : Int
  log : List Event
deriving DecidableEq, Repr

/-- Look up the record of pid `i` in the registry. -/
def findProc (s : SimState) (i : Nat) : Option Proc :=
  s.procs.find? (fun p => p.pid = i)

/-- Apply `f` to the record of pid `i` (pointer mutation in the C code). -/
def updProc (s : SimState) (i : Nat) (f : Proc → Proc) : SimState :=
  { s with procs := s.procs.map (fun p => if p.pid = i then f p else p) }

/-- Read resource slot `rid` of the resource table. -/
def getRes (s : SimState) (rid : Nat) : Option Res :=
  s.resources.get? rid

/-- Overwrite resource slot `rid` of the resource table. -/
def setRes (s : SimState) (rid : Nat) (r : Res) : SimState :=
  { s with resources := s.resources.set rid r }

/-- Resolve a queue of pids to the corresponding records, in queue order
(`list_for_each_entry` traversal). -/
def queueProcs (s : SimState) (q : List Nat) : Option (List Proc) :=
  q.mapM (findProc s)

/-- True when pid `i` is linked into some list: the fork queue, the ready
queue, or a resource wait queue.  This is the negation of
`list_empty(&p->list)` for a process maintained with `list_del_init`. -/
def pidLinked (s : SimState) (i : Nat) : Bool :=
  s.forkqueue.contains i || s.readyqueue.contains i ||
    s.resources.any (fun r => r.waitqueue.contains i)

/-- Append one event to the log (`__print_event`). -/
def pushLog (s : SimState) (e : Event) : SimState :=
  { s with log := s.log ++ [e] }

/-- Advance the tick counter by one (`ticks++`). -/
def tickAdvance (s : SimState) : SimState :=
  { s with ticks := s.ticks + 1 }

/-- Append pid `i` to the ready-queue tail
(`list_add_tail(&p->list, &readyqueue)`). -/
def pushReady (s : SimState) (i : Nat) : SimState :=
  { s with readyqueue := s.readyqueue ++ [i] }

/-! ### Default FCFS resource protocol (`fcfs_acquire` / `fcfs_release`) -/

/-- Embedding of `fcfs_acquire`: if the resource has no owner the current
process takes it and the call succeeds; otherwise current becomes WAIT,
is appended to the tail of the resource wait queue, and the call fails. -/
def fcfs_acquire (s : SimState) (rid : Nat) : Option (SimState × Bool) := do
  let cur ← s.current
  let r ← getRes s rid
  match r.owner with
  | none => some (setRes s rid { r with owner := some cur }, true)
  | some _ =>
      let s := updProc s cur (fun p => { p with status := Status.WAIT })
      some (setRes s rid { r with waitqueue := r.waitqueue ++ [cur] }, false)

/-- Embedding of `fcfs_release`: assert the caller owns the resource
(`none` on violation), clear ownership, and if the wait queue is
non-empty wake its head: assert it is WAIT, detach it, set it READY and
append it to the ready-queue tail. -/
def fcfs_release (s : SimState) (rid : Nat) : Option SimState := do
  let cur ← s.current
  let r ← getRes s rid
  if r.owner = some cur then
    match r.waitqueue with
    | [] => some (setRes s rid { r with owner := none })
    | w :: rest => do
        let wp ← findProc s w
        if wp.status = Status.WAIT then
          let s := setRes s rid { owner := none, waitqueue := rest }
          let s := updProc s w (fun p => { p with status := Status.READY })
          some (pushReady s w)
        else none
  else none

/-! ### FIFO scheduler -/

/-- The `pick_next` tail of `fifo_schedule`: detach and return the head of
the ready queue, or return no process when it is empty. -/
def fifo_pick (s : SimState) : Option (SimState × Option Nat) :=
  match s.readyqueue with
  | [] => some (s, none)
  | n :: rest => some ({ s with readyqueue := rest }, some n)

/-- Embedding of `fifo_schedule`: keep the current process if it exists,
is not WAIT and has remaining lifetime; otherwise pick the ready-queue
head. -/
def fifo_schedule (s : SimState) : Option (SimState × Option Nat) :=
  match s.current with
  | none => fifo_pick s
  | some cur => do
      let c ← findProc s cur
      if c.status = Status.WAIT then fifo_pick s
      else if c.age < c.lifespan then some (s, some cur)
      else fifo_pick s

/-! ### SJF scheduler -/

/-- Fold of `if (min > prc->lifespan) min = prc->lifespan` over a queue,
starting from the hard-coded sentinel 1000. -/
def minLifespan (ps : List Proc) : Nat :=
  ps.foldl (fun m p => if p.lifespan < m then p.lifespan else m) 1000

/-- The `pick_next` tail of `sjf_schedule`: compute the minimum lifespan
(sentinel 1000), detach and return the first ready process attaining it;
when no process attains it (every lifespan exceeds 1000) the C loop falls
through and returns the cursor `prc`, which is the last ready process,
still linked into the queue. -/
def sjf_pick (s : SimState) : Option (SimState × Option Nat) := do
  let ps ← queueProcs s s.readyqueue
  if ps.isEmpty then some (s, none)
  else
    match ps.find? (fun p => p.lifespan = minLifespan ps) with
    | some p => some ({ s with readyqueue := s.readyqueue.erase p.pid }, some p.pid)
    | none => do
        let l ← s.readyqueue.getLast?
        some (s, some l)

/-- Embedding of `sjf_schedule`: same current-process guard as FIFO, then
`sjf_pick`. -/
def sjf_schedule (s : SimState) : Option (SimState × Option Nat) :=
  match s.current with
  | none => sjf_pick s
  | some cur => do
      let c ← findProc s cur
      if c.status = Status.WAIT then sjf_pick s
      else if c.age < c.lifespan then some (s, some cur)
      else sjf_pick s

/-! ### SRTF scheduler -/

/-- Embedding of `srtf_schedule`.  The minimum ready lifespan (sentinel
1000) is computed up front; a running, non-WAIT current process with
remaining lifetime is preempted when that minimum is strictly below its
remaining time `lifespan - age`: the first ready process attaining the
minimum is detached and returned while current is pushed at the ready
queue head (`list_add`).  If the preemption scan matches nothing the C
code falls through to `pick_next`, which is `sjf_pick`. -/
def srtf_schedule (s : SimState) : Option (SimState × Option Nat) := do
  let ps ← queueProcs s s.readyqueue
  let m := minLifespan ps
  match s.current with
  | none => sjf_pick s
  | some cur => do
      let c ← findProc s cur
      if c.status = Status.WAIT then sjf_pick s
      else if c.age < c.lifespan then
        if m < c.lifespan - c.age then
          match ps.find? (fun p => p.lifespan = m) with
          | some p =>
              some ({ s with readyqueue := cur :: s.readyqueue.erase p.pid }, some p.pid)
          | none => sjf_pick s
        else some (s, some cur)
      else sjf_pick s

/-! ### Round-Robin scheduler -/

/-- Embedding of `rr_schedule`.  The C global `ticks_cnt` (initialised to
-1) is incremented on every call; the preemption branch fires only when
it equals `ticks`, which holds on every tick because `schedule` is called
exactly once per tick.  A running process with remaining lifetime is
rotated to the ready-queue tail while the head runs next; with an empty
ready queue it keeps running. -/
def rr_schedule (s : SimState) : Option (SimState × Option Nat) := do
  let s := { s with ticks_cnt := s.ticks_cnt + 1 }
  match s.current with
  | none => fifo_pick s
  | some cur => do
      let c ← findProc s cur
      if c.status = Status.WAIT then fifo_pick s
      else if c.age < c.lifespan then
        if (s.ticks : Int) = s.ticks_cnt then
          match s.readyqueue with
          | [] => some (s, some cur)
          | n :: rest => some ({ s with readyqueue := rest ++ [cur] }, some n)
        else some (s, some cur)
      else fifo_pick s

/-! ### Priority scheduler and its resource protocol -/

/-- Embedding of `prio_acquire`: on a free resource the current process
becomes owner, is set to WAIT and appended to the ready-queue tail
(forcing a fresh scheduling decision next tick), and the call succeeds;
on an owned resource current is set to WAIT, appended to the resource
wait queue, and the call fails. -/
def prio_acquire (s : SimState) (rid : Nat) : Option (SimState × Bool) := do
  let cur ← s.current
  let r ← getRes s rid
  match r.owner with
  | none =>
      let s := setRes s rid { r with owner := some cur }
      let s := updProc s cur (fun p => { p with status := Status.WAIT })
      some (pushReady s cur, true)
  | some _ =>
      let s := updProc s cur (fun p => { p with status := Status.WAIT })
      some (setRes s rid { r with waitqueue := r.waitqueue ++ [cur] }, false)

/-- Fold of `if (max < prc->prio) max = prc->prio` over a queue, starting
from accumulator `m0` (the C accumulator variable is reused across loops,
so the start value is passed in). -/
def maxPrioOf (m0 : Nat) (ps : List Proc) : Nat :=
  ps.foldl (fun m p => if m < p.prio then p.prio else m) m0

/-- Shared tail of `prio_release` / `pcp_release` / `pip_release` with the
ownership already cleared in `r`: if the wait queue is non-empty, find
the first waiter attaining the maximum priority (sentinel 0), assert it
is WAIT, detach it, set it READY and append it to the ready-queue tail. -/
def wakeMaxWaiter (s : SimState) (rid : Nat) (r : Res) : Option SimState :=
  if r.waitqueue.isEmpty then some (setRes s rid r)
  else do
      let ws ← queueProcs s r.waitqueue
      let w ← ws.find? (fun p => p.prio = maxPrioOf 0 ws)
      if w.status = Status.WAIT then
        let s := setRes s rid { r with waitqueue := r.waitqueue.erase w.pid }
        let s := updProc s w.pid (fun p => { p with status := Status.READY })
        some (pushReady s w.pid)
      else none

/-- Embedding of `prio_release`: assert the caller owns the resource,
clear ownership, then wake the highest-priority waiter. -/
def prio_release (s : SimState) (rid : Nat) : Option SimState := do
  let cur ← s.current
  let r ← getRes s rid
  if r.owner = some cur then wakeMaxWaiter s rid { r with owner := none }
  else none

/-- The `pick_next` tail of `prio_schedule`: detach and return the first
ready process attaining the maximum priority (sentinel 0); the unmatched
fallthrough returns the last ready process still linked, mirroring the C
cursor. -/
def prio_pick (s : SimState) : Option (SimState × Option Nat) := do
  let ps ← queueProcs s s.readyqueue
  if ps.isEmpty then some (s, none)
  else
    match ps.find? (fun p => p.prio = maxPrioOf 0 ps) with
    | some p => some ({ s with readyqueue := s.readyqueue.erase p.pid }, some p.pid)
    | none => do
        let l ← s.readyqueue.getLast?
        some (s, some l)

/-- Embedding of `prio_schedule`: same current-process guard as FIFO, then
`prio_pick`. -/
def prio_schedule (s : SimState) : Option (SimState × Option Nat) :=
  match s.current with
  | none => prio_pick s
  | some cur => do
      let c ← findProc s cur
      if c.status = Status.WAIT then prio_pick s
      else if c.age < c.lifespan then some (s, some cur)
      else prio_pick s

/-! ### Priority + aging scheduler -/

/-- One aging step: increment a priority, capped at `maxPrio`
(`if (prc->prio < MAX_PRIO) prc->prio++`). -/
def bumpPrio (maxPrio : Nat) (p : Proc) : Proc :=
  if p.prio < maxPrio then { p with prio := p.prio + 1 } else p

/-- The aging scan of `pick_next`: every ready process other than the
one selected (pid `selPid`) ages by one, capped at `maxPrio`. -/
def agingBump (maxPrio selPid : Nat) (s : SimState) : SimState :=
  { s with procs := s.procs.map (fun (p : Proc) =>
      if p.pid ≠ selPid ∧ s.readyqueue.contains p.pid then bumpPrio maxPrio p else p) }

/-- The aging scan of the current-continues path: every ready process
ages by one, capped at `maxPrio`. -/
def agingAll (maxPrio : Nat) (s : SimState) : SimState :=
  { s with procs := s.procs.map (fun (p : Proc) =>
      if s.readyqueue.contains p.pid then bumpPrio maxPrio p else p) }

/-- Detach a pid from the ready queue (`list_del_init(&next->list)`). -/
def eraseReady (s : SimState) (i : Nat) : SimState :=
  { s with readyqueue := s.readyqueue.erase i }

/-- The `pick_next` tail of `pa_schedule`, entered with priority-maximum
accumulator `m0` (0 on the direct paths, the already-computed ready
maximum on the preemption path).  One scan selects the first ready
process attaining the maximum while every other ready process ages by
one (capped at `maxPrio`); the selected process is detached and its
priority reset to its original value. -/
def pa_pick (maxPrio m0 : Nat) (s : SimState) : Option (SimState × Option Nat) := do
  let ps ← queueProcs s s.readyqueue
  if ps.isEmpty then some (s, none)
  else do
    let sel ← ps.find? (fun p => p.prio = maxPrioOf m0 ps)
    some (updProc (eraseReady (agingBump maxPrio sel.pid s) sel.pid) sel.pid
        (fun p => { p with prio := p.prio_orig }), some sel.pid)

/-- The current-process arm of `pa_schedule`.  A running, non-WAIT
current process with remaining lifetime is preempted whenever some ready
priority is at least its own (`current->prio <= max`): it is appended to
the ready-queue tail and control falls into `pick_next` with the
accumulated maximum.  Otherwise every ready process ages by one (capped)
and current continues with its priority reset to its original value. -/
def pa_cur (maxPrio : Nat) (s : SimState) (cur : Nat) : Option (SimState × Option Nat) := do
  let c ← findProc s cur
  if c.status = Status.WAIT then pa_pick maxPrio 0 s
  else if c.age < c.lifespan then do
    let ps ← queueProcs s s.readyqueue
    if ps.isEmpty then
      some (updProc s cur (fun p => { p with prio := p.prio_orig }), some cur)
    else if c.prio ≤ maxPrioOf 0 ps then
      pa_pick maxPrio (maxPrioOf 0 ps) (pushReady s cur)
    else
      some (updProc (agingAll maxPrio s) cur (fun p => { p with prio := p.prio_orig }), some cur)
  else pa_pick maxPrio 0 s

def pa_schedule (maxPrio : Nat) (s : SimState) : Option (SimState × Option Nat) :=
  match s.current with
  | none => pa_pick maxPrio 0 s
  | some cur => pa_cur maxPrio s cur

/-! ### Priority-ceiling protocol -/

/-- Embedding of `pcp_acquire`: like `prio_acquire`, except that on a
successful acquisition the new owner's priority is raised to `MAX_PRIO`. -/
def pcp_acquire (maxPrio : Nat) (s : SimState) (rid : Nat) : Option (SimState × Bool) := do
  let cur ← s.current
  let r ← getRes s rid
  match r.owner with
  | none =>
      let s := setRes s rid { r with owner := some cur }
      let s := updProc s cur (fun p => { p with prio := maxPrio })
      let s := updProc s cur (fun p => { p with status := Status.WAIT })
      some (pushReady s cur, true)
  | some _ =>
      let s := updProc s cur (fun p => { p with status := Status.WAIT })
      some (setRes s rid { r with waitqueue := r.waitqueue ++ [cur] }, false)

/-- Embedding of `pcp_release`: assert the caller owns the resource,
restore the owner's priority to its original value, clear ownership,
then wake the highest-priority waiter. -/
def pcp_release (s : SimState) (rid : Nat) : Option SimState := do
  let cur ← s.current
  let r ← getRes s rid
  if r.owner = some cur then
    let s := updProc s cur (fun p => { p with prio := p.prio_orig })
    wakeMaxWaiter s rid { r with owner := none }
  else none

/-- The `pick_next` tail of `pcp_schedule` (also used by PIP): like
`pa_pick` but without any aging increments. -/
def pcp_pick (m0 : Nat) (s : SimState) : Option (SimState × Option Nat) := do
  let ps ← queueProcs s s.readyqueue
  if ps.isEmpty then some (s, none)
  else do
    let sel ← ps.find? (fun p => p.prio = maxPrioOf m0 ps)
    let s := { s with readyqueue := s.readyqueue.erase sel.pid }
    let s := updProc s sel.pid (fun p => { p with prio := p.prio_orig })
    some (s, some sel.pid)

/-- Embedding of `pcp_schedule`: the `pa_schedule` pick/preempt rule
without the aging increments. -/
def pcp_schedule (s : SimState) : Option (SimState × Option Nat) :=
  match s.current with
  | none => pcp_pick 0 s
  | some cur => do
      let c ← findProc s cur
      if c.status = Status.WAIT then pcp_pick 0 s
      else if c.age < c.lifespan then do
        let ps ← queueProcs s s.readyqueue
        if ps.isEmpty then
          some (updProc s cur (fun p => { p with prio := p.prio_orig }), some cur)
        else if c.prio ≤ maxPrioOf 0 ps then
          pcp_pick (maxPrioOf 0 ps) (pushReady s cur)
        else
          some (updProc s cur (fun p => { p with prio := p.prio_orig }), some cur)
      else pcp_pick 0 s

/-! ### Priority-inheritance protocol -/

/-- Embedding of `pip_acquire`: like `prio_acquire`, except that on a
failed acquisition, if the owner's priority is strictly below the
requester's, the owner's priority is raised to the requester's. -/
def pip_acquire (s : SimState) (rid : Nat) : Option (SimState × Bool) := do
  let cur ← s.current
  let r ← getRes s rid
  match r.owner with
  | none =>
      let s := setRes s rid { r with owner := some cur }
      let s := updProc s cur (fun p => { p with status := Status.WAIT })
      some (pushReady s cur, true)
  | some o => do
      let op ← findProc s o
      let cp ← findProc s cur
      let s := if op.prio < cp.prio then updProc s o (fun p => { p with prio := cp.prio }) else s
      let s := updProc s cur (fun p => { p with status := Status.WAIT })
      some (setRes s rid { r with waitqueue := r.waitqueue ++ [cur] }, false)

/-- Embedding of `pip_release`: textually identical to `pcp_release` (the
owner's priority is restored to its original value unconditionally, then
the highest-priority waiter is woken). -/
def pip_release (s : SimState) (rid : Nat) : Option SimState := do
  let cur ← s.current
  let r ← getRes s rid
  if r.owner = some cur then
    let s := updProc s cur (fun p => { p with prio := p.prio_orig })
    wakeMaxWaiter s rid { r with owner := none }
  else none

/-! ### Scheduler records and the simulation engine -/

/-- The `struct scheduler` policy object: `schedule`, `acquire`,
`release`, and the optional `forked` / `exiting` hooks (none of the
eight policies installs a hook; `initialize` / `finalize` are trivial in
the source and irrelevant to the simulation, so they are omitted). -/
structure Scheduler where
  schedule : SimState → Option (SimState × Option Nat)
  acquire : SimState → Nat → Option (SimState × Bool)
  release : SimState → Nat → Option SimState
  forked : Option (SimState → Nat → SimState)
  exiting : Option (SimState → Nat → SimState)

/-- The `fifo_scheduler` policy object. -/
def fifo_scheduler : Scheduler :=
  { schedule := fifo_schedule, acquire := fcfs_acquire, release := fcfs_release,
    forked := none, exiting := none }

/-- The `sjf_scheduler` policy object. -/
def sjf_scheduler : Scheduler :=
  { schedule := sjf_schedule, acquire := fcfs_acquire, release := fcfs_release,
    forked := none, exiting := none }

/-- The `srtf_scheduler` policy object. -/
def srtf_scheduler : Scheduler :=
  { schedule := srtf_schedule, acquire := fcfs_acquire, release := fcfs_release,
    forked := none, exiting := none }

/-- The `rr_scheduler` policy object. -/
def rr_scheduler : Scheduler :=
  { schedule := rr_schedule, acquire := fcfs_acquire, release := fcfs_release,
    forked := none, exiting := none }

/-- The `prio_scheduler` policy object. -/
def prio_scheduler : Scheduler :=
  { schedule := prio_schedule, acquire := prio_acquire, release := prio_release,
    forked := none, exiting := none }

/-- The `pa_scheduler` policy object (parameterised by `MAX_PRIO`). -/
def pa_scheduler (maxPrio : Nat) : Scheduler :=
  { schedule := pa_schedule maxPrio, acquire := prio_acquire, release := prio_release,
    forked := none, exiting := none }

/-- The `pcp_scheduler` policy object (parameterised by `MAX_PRIO`). -/
def pcp_scheduler (maxPrio : Nat) : Scheduler :=
  { schedule := pcp_schedule, acquire := pcp_acquire maxPrio, release := pcp_release,
    forked := none, exiting := none }

/-- The `pip_scheduler` policy object (its `schedule` is `pcp_schedule`,
as in the source). -/
def pip_scheduler : Scheduler :=
  { schedule := pcp_schedule, acquire := pip_acquire, release := pip_release,
    forked := none, exiting := none }

/-- One iteration of `__fork_on_schedule`: a fork-queue process whose
start tick has been reached moves to the ready-queue tail with status
READY, a fork event is logged, and the policy's `forked` hook (when
present) is notified. -/
def forkOne (sch : Scheduler) (s : SimState) (i : Nat) : SimState :=
  match findProc s i with
  | none => s
  | some p =>
      if p.starts_at ≤ s.ticks then
        let s := updProc s i (fun q => { q with status := Status.READY })
        let s := { s with forkqueue := s.forkqueue.erase i,
                          readyqueue := s.readyqueue ++ [i],
                          log := s.log ++ [Event.forked s.ticks i] }
        match sch.forked with
        | some f => f s i
        | none => s
      else s

/-- Embedding of `__fork_on_schedule`: the safe traversal visits every
process that was in the fork queue when the tick began. -/
def forkPhase (sch : Scheduler) (s : SimState) : SimState :=
  s.forkqueue.foldl (forkOne sch) s

/-- Embedding of `__exit_process`: assert the process is not linked into
any list, holds no resource and has no pending acquisition (`none`
models the C abort), fire the `exiting` hook when present, log the exit
event, and free the record (remove it from the registry). -/
def exitProcess (sch : Scheduler) (s : SimState) (i : Nat) : Option SimState := do
  let p ← findProc s i
  if pidLinked s i then none
  else if p.holding ≠ [] then none
  else if p.to_acquire ≠ [] then none
  else
    let s := match sch.exiting with
      | some f => f s i
      | none => s
    some { s with procs := s.procs.filter (fun q => q.pid ≠ i),
                  log := s.log ++ [Event.exited s.ticks i] }

/-- Retirement of one previous runner: a process that ran last tick and
is still RUNNING is demoted to READY, and once its age equals its
lifespan it is marked EXIT and decommissioned through `exitProcess`. -/
def retireOne (sch : Scheduler) (s : SimState) (i : Nat) : Option SimState := do
  let p ← findProc s i
  let s := if p.status = Status.RUNNING
    then updProc s i (fun q => { q with status := Status.READY }) else s
  if p.age = p.lifespan then
    exitProcess sch (updProc s i (fun q => { q with status := Status.EXIT })) i
  else some s

/-- Embedding of the retire-previous step of `__do_simulation` (`if (prev)`). -/
def retirePrev (sch : Scheduler) (s : SimState) (prev : Option Nat) : Option SimState :=
  match prev with
  | none => some s
  | some i => retireOne sch s i

/-- Embedding of the `__run_current_acquire` loop over the pending plan
entries.  Returns the final state, the entries left pending, the entries
moved to the held collection this tick (in move order), and the overall
success flag.  An entry due at the current age invokes the policy's
`acquire`; success moves it to the held collection and logs the event,
failure stops the loop immediately, leaving it and the unvisited
entries pending. -/
def acqLoop (sch : Scheduler) (cur age : Nat) :
    List RS → SimState → Option (SimState × List RS × List RS × Bool)
  | [], s => some (s, [], [], true)
  | rs :: rest, s =>
      if rs.acq_at = age then do
        let r ← sch.acquire s rs.resource_id
        if r.2 then do
          let s := pushLog r.1 (Event.acquired r.1.ticks cur rs.resource_id)
          let t ← acqLoop sch cur age rest s
          some (t.1, t.2.1, rs :: t.2.2.1, t.2.2.2)
        else some (r.1, rs :: rest, [], false)
      else do
        let t ← acqLoop sch cur age rest s
        some (t.1, rs :: t.2.1, t.2.2.1, t.2.2.2)

/-- Embedding of `__run_current_acquire`: run the loop on the current
process's pending plan, then record the surviving pending list and
append the moved entries to its held collection. -/
def runCurrentAcquire (sch : Scheduler) (s : SimState) (cur : Nat) :
    Option (SimState × Bool) := do
  let p ← findProc s cur
  let t ← acqLoop sch cur p.age p.to_acquire s
  let s := updProc t.1 cur (fun q =>
    { q with to_acquire := t.2.1, holding := q.holding ++ t.2.2.1 })
  some (s, t.2.2.2)

/-- Embedding of the `__run_current_release` loop: every held entry's
remaining duration is decremented; an entry reaching zero invokes the
policy's `release`, logs the event and is removed.  Returns the final
state and the surviving held list. -/
def relLoop (sch : Scheduler) (cur : Nat) :
    List RS → SimState → Option (SimState × List RS)
  | [], s => some (s, [])
  | rs :: rest, s =>
      if rs.duration = 1 then do
        let s ← sch.release s rs.resource_id
        relLoop sch cur rest (pushLog s (Event.released s.ticks cur rs.resource_id))
      else do
        let t ← relLoop sch cur rest s
        some (t.1, { rs with duration := rs.duration - 1 } :: t.2)

/-- Embedding of `__run_current_release` on the current process. -/
def runCurrentRelease (sch : Scheduler) (s : SimState) (cur : Nat) : Option SimState := do
  let p ← findProc s cur
  let t ← relLoop sch cur p.holding s
  some (updProc t.1 cur (fun q => { q with holding := t.2 }))

/-- Outcome of one engine tick: continue with the next state, terminate
normally, or abort on an assertion failure. -/
inductive StepOut where
  | next (s : SimState)
  | finished (s : SimState)
  | fail
deriving DecidableEq, Repr

/-- The body of the run-selected-process part of one tick, after the
selected process has been marked RUNNING: assert it is detached from
every list (abort otherwise), try the scheduled acquisitions; on full
success log the run event, age the process by one and perform the
scheduled releases; on a blocked acquisition log the blocked event
only. -/
def runGuarded (sch : Scheduler) (s : SimState) (cur : Nat) : StepOut :=
  if pidLinked s cur then StepOut.fail
  else
    match runCurrentAcquire sch s cur with
    | none => StepOut.fail
    | some (s, ok) =>
        if ok then
          let s := updProc (pushLog s (Event.run s.ticks cur)) cur
            (fun q => { q with age := q.age + 1 })
          match runCurrentRelease sch s cur with
          | none => StepOut.fail
          | some s => StepOut.next (tickAdvance s)
        else StepOut.next (tickAdvance (pushLog s (Event.blocked s.ticks cur)))

/-- The run-selected-process part of one tick of `__do_simulation`: mark
the selected process RUNNING, then run the guarded body. -/
def runSelected (sch : Scheduler) (s : SimState) (cur : Nat) : StepOut :=
  runGuarded sch (updProc s cur (fun q => { q with status := Status.RUNNING })) cur

/-- The post-fork part of one tick of `__do_simulation`: ask the policy
for the next process (the previous tick's runner is still `s.current`
while `schedule` executes), retire the previous runner, then either stop
(no process selected and both queues empty), idle, or run the selected
process; the tick counter advances on every non-terminating iteration. -/
def stepB (sch : Scheduler) (s : SimState) : StepOut :=
  match sch.schedule s with
  | none => StepOut.fail
  | some (s1, nxt) =>
      match retirePrev sch { s1 with current := nxt } s.current with
      | none => StepOut.fail
      | some s2 =>
          match nxt with
          | none =>
              if s2.readyqueue = [] ∧ s2.forkqueue = [] then StepOut.finished s2
              else StepOut.next (tickAdvance (pushLog s2 (Event.idle s2.ticks)))
          | some cur => runSelected sch s2 cur

/-- One full tick of `__do_simulation`: fork due processes, then run the
post-fork part. -/
def step (sch : Scheduler) (s : SimState) : StepOut :=
  stepB sch (forkPhase sch s)

/-- Iterate `step` for at most `fuel` ticks, stopping early on
termination or abort. -/
def runSim (sch : Scheduler) : Nat → SimState → StepOut
  | 0, s => StepOut.next s
  | fuel + 1, s =>
      match step sch s with
      | StepOut.next t => runSim sch fuel t
      | out => out

/-- Iterate `step` exactly `n` ticks, requiring every iteration to
continue (`none` when the simulation finishes or aborts first). -/
def stepN (sch : Scheduler) : Nat → SimState → Option SimState
  | 0, s => some s
  | n + 1, s =>
      match step sch s with
      | StepOut.next t => stepN sch n t
      | _ => none

/-- One process descriptor of a script (§6 of the spec): pid, lifespan,
initial priority, start tick and the acquisition plan in declaration
order. -/
structure PDesc where
  pid : Nat
  lifespan : Nat
  prio : Nat
  starts_at : Nat
  plan : List RS
deriving DecidableEq, Repr

/-- The process record built by `__load_script` for one descriptor
(fresh record is zeroed, so age is 0 and status is READY; `prio` and
`prio_orig` are both set to the declared priority). -/
def mkProc (d : PDesc) : Proc :=
  { pid := d.pid, lifespan := d.lifespan, age := 0, prio := d.prio,
    prio_orig := d.prio, starts_at := d.starts_at, status := Status.READY,
    to_acquire := d.plan, holding := [] }

/-- The simulator state right after `__initialize` and `__load_script`:
every described process sits in the fork queue in script order, the
resource table has `nres` free slots, and the tick counter is 0. -/
def initState (nres : Nat) (ds : List PDesc) : SimState :=
  { procs := ds.map mkProc,
    forkqueue := ds.map (fun d => d.pid),
    readyqueue := [],
    resources := List.replicate nres { owner := none, waitqueue := [] },
    current := none, ticks := 0, ticks_cnt := -1, log := [] }

/-- The work-related fields of a process record: age, pending plan and
held entries — the fields an `acquire` callback never touches. -/
def workOf (p : Proc) : Nat × List RS × List RS :=
  (p.age, p.to_acquire, p.holding)

/-- An `acquire` callback is tame when it never touches the log, the tick
counter, or any process's age, pending plan or held entries.  All four
acquire implementations of the source (`fcfs_acquire`, `prio_acquire`,
`pcp_acquire`, `pip_acquire`) are tame: they only move processes between
queues and update statuses, ownership and priorities. -/
def AcquireTame (sch : Scheduler) : Prop :=
  ∀ s rid t b, sch.acquire s rid = some (t, b) →
    t.log = s.log ∧ t.ticks = s.ticks ∧
    ∀ i, (findProc t i).map workOf = (findProc s i).map workOf

/-- The run events of a log, as (tick, pid) pairs in order. -/
def runOrder (l : List Event) : List (Nat × Nat) :=
  l.filterMap (fun e => match e with
    | Event.run t i => some (t, i)
    | _ => none)

/-- The log of a normally finished simulation run. -/
def finishedLog : StepOut → Option (List Event)
  | StepOut.finished t => some t.log
  | _ => none

/-! ### Concrete states used to witness the theorems on small inputs -/

/-- A process record with the given pid, lifespan, age, priority, status
and plan, used to build concrete witness states. -/
def mkRec (pid lifespan age prio : Nat) (st : Status) (plan holding : List RS) : Proc :=
  { pid := pid, lifespan := lifespan, age := age, prio := prio, prio_orig := prio,
    starts_at := 0, status := st, to_acquire := plan, holding := holding }

/-- Witness state for the FCFS claim: process 2 runs and owns resource 0,
process 1 is blocked on it. -/
def fcfsWitState : SimState :=
  { procs := [mkRec 1 3 0 0 Status.WAIT [] [], mkRec 2 3 1 0 Status.RUNNING [] []],
    forkqueue := [], readyqueue := [],
    resources := [{ owner := some 2, waitqueue := [1] }],
    current := some 2, ticks := 2, ticks_cnt := -1, log := [] }

/-- Witness state for the selection assertion: the selected pid 1 is
still linked into the ready queue. -/
def linkedWitState : SimState :=
  { procs := [mkRec 1 2 0 0 Status.READY [] []],
    forkqueue := [], readyqueue := [1], resources := [],
    current := some 1, ticks := 0, ticks_cnt := -1, log := [] }

/-- Script of the C4 counterexample: one process that acquires resource 0
twice at age 0 under the Priority policy. -/
def c4Script : List PDesc :=
  [{ pid := 1, lifespan := 2, prio := 1, starts_at := 0,
     plan := [{ resource_id := 0, acq_at := 0, duration := 5 },
              { resource_id := 0, acq_at := 0, duration := 5 }] }]

/-- Witness state for the SJF sentinel claim: a lone ready process whose
lifespan 1001 exceeds the sentinel. -/
def c10State : SimState :=
  { procs := [mkRec 1 1001 0 0 Status.READY [] []],
    forkqueue := [], readyqueue := [1], resources := [],
    current := none, ticks := 0, ticks_cnt := -1, log := [] }

/-- Witness state for the exit claim: the previous runner has aged to its
lifespan, holds nothing, and is detached. -/
def c2State : SimState :=
  { procs := [mkRec 1 3 3 0 Status.RUNNING [] []],
    forkqueue := [], readyqueue := [], resources := [],
    current := some 1, ticks := 3, ticks_cnt := -1, log := [] }

/-- Script of the SRTF spec scenario: pid 1 with lifespan 5 starting at
tick 0, pid 2 with lifespan 1 forked at tick 2. -/
def srtfScript : List PDesc :=
  [{ pid := 1, lifespan := 5, prio := 0, starts_at := 0, plan := [] },
   { pid := 2, lifespan := 1, prio := 0, starts_at := 2, plan := [] }]

/-- Script of the Round-Robin spec scenario: two processes of lifespan 3
both starting at tick 0. -/
def rr2Script : List PDesc :=
  [{ pid := 1, lifespan := 3, prio := 0, starts_at := 0, plan := [] },
   { pid := 2, lifespan := 3, prio := 0, starts_at := 0, plan := [] }]

/-- Acquisition plan of the blocked-tick witness: one entry due at age 0. -/
def c1Plan : List RS := [{ resource_id := 0, acq_at := 0, duration := 2 }]

/-- The process of the blocked-tick witness. -/
def c1Proc : Proc := mkRec 1 3 0 0 Status.READY c1Plan []

/-- Witness state for the blocked-tick claim: pid 1 is selected to run
and will request resource 0, which pid 2 owns. -/
def c1State : SimState :=
  { procs := [c1Proc, mkRec 2 3 1 0 Status.READY [] []],
    forkqueue := [], readyqueue := [],
    resources := [{ owner := some 2, waitqueue := [] }],
    current := some 1, ticks := 1, ticks_cnt := -1, log := [] }

/-- The state after pid 1's acquisition of resource 0 blocks in
`c1State`: pid 1 is WAIT and queued on resource 0. -/
def c1Blocked : SimState :=
  { c1State with
    procs := [mkRec 1 3 0 0 Status.WAIT c1Plan [], mkRec 2 3 1 0 Status.READY [] []],
    resources := [{ owner := some 2, waitqueue := [1] }] }

/-- Script of the PCP counterexample: one process of baseline priority 3
that acquires resource 0 at age 0 and holds it for 3 ticks. -/
def c8Script : List PDesc :=
  [{ pid := 1, lifespan := 4, prio := 3, starts_at := 0,
     plan := [{ resource_id := 0, acq_at := 0, duration := 3 }] }]

/-- Witness state for the PCP claim: pid 1 (baseline priority 3) runs and
resource 0 is free. -/
def c8WitState : SimState :=
  { procs := [mkRec 1 4 0 3 Status.RUNNING [] []],
    forkqueue := [], readyqueue := [],
    resources := [{ owner := none, waitqueue := [] }],
    current := some 1, ticks := 0, ticks_cnt := -1, log := [] }

/-- Witness state for the PIP claim: pid 2 (priority 5) runs and requests
resource 0, owned by pid 1 (priority 1). -/
def c9State : SimState :=
  { procs := [mkRec 1 5 1 1 Status.READY [] [], mkRec 2 5 0 5 Status.RUNNING [] []],
    forkqueue := [], readyqueue := [1],
    resources := [{ owner := some 1, waitqueue := [] }],
    current := some 2, ticks := 1, ticks_cnt := -1, log := [] }

/-- Witness state for the SRTF claim: the tick-2 state of the scenario,
where pid 1 has run twice and pid 2 has just been forked. -/
def c5State : SimState :=
  { procs := [mkRec 1 5 2 0 Status.RUNNING [] [],
              { mkRec 2 1 0 0 Status.READY [] [] with starts_at := 2 }],
    forkqueue := [], readyqueue := [2], resources := [],
    current := some 1, ticks := 2, ticks_cnt := -1, log := [] }

/-- Witness state for the Round-Robin claim: the tick-1 state of the
scenario, where pid 1 ran at tick 0 and pid 2 is ready. -/
def c6State : SimState :=
  { procs := [mkRec 1 3 1 0 Status.RUNNING [] [], mkRec 2 3 0 0 Status.READY [] []],
    forkqueue := [], readyqueue := [2], resources := [],
    current := some 1, ticks := 1, ticks_cnt := 0, log := [] }

/-- Witness state for the Priority+Aging claim: pid 1 (priority 2) runs
while pids 2 (priority 3) and 3 (priority 1) are ready, so pid 2's
priority matches or beats the runner's and forces a preemption. -/
def c7State : SimState :=
  { procs := [mkRec 1 5 1 2 Status.RUNNING [] [],
              mkRec 2 5 0 3 Status.READY [] [],
              mkRec 3 5 0 1 Status.READY [] []],
    forkqueue := [], readyqueue := [2, 3], resources := [],
    current := some 1, ticks := 1, ticks_cnt := -1, log := [] }

/-! ### Helper lemmas about the state operations -/

theorem findProc_some_pid {s : SimState} {i : Nat} {p : Proc}
    (h : findProc s i = some p) : p.pid = i := by
  have := List.find?_some h
  simpa using this

theorem findProc_updProc (s : SimState) (i j : Nat) (f : Proc → Proc)
    (hf : ∀ p, (f p).pid = p.pid) :
    findProc (updProc s i f) j =
      if j = i then (findProc s i).map f else findProc s j := by
  unfold findProc updProc
  simp only [List.find?_map]
  have hpred : ((fun p => decide (p.pid = j)) ∘ fun p => if p.pid = i then f p else p)
      = fun p : Proc => decide (p.pid = j) := by
    funext p
    by_cases h : p.pid = i <;> simp [h, hf]
  rw [hpred]
  by_cases hj : j = i
  · subst hj
    cases hfind : s.procs.find? (fun p => decide (p.pid = j)) with
    | none => simp
    | some r =>
        have hr : r.pid = j := by simpa using List.find?_some hfind
        simp [Option.map, hr]
  · cases hfind : s.procs.find? (fun p => decide (p.pid = j)) with
    | none => simp [hj]
    | some r =>
        have hr : r.pid = j := by simpa using List.find?_some hfind
        have : ¬ r.pid = i := by rw [hr]; exact hj
        simp [hj, Option.map, this]

theorem findProc_updProc_self (s : SimState) (i : Nat) (f : Proc → Proc)
    (hf : ∀ p, (f p).pid = p.pid) :
    findProc (updProc s i f) i = (findProc s i).map f := by
  rw [findProc_updProc s i i f hf]
  simp

theorem findProc_updProc_ne (s : SimState) {i j : Nat} (f : Proc → Proc)
    (hf : ∀ p, (f p).pid = p.pid) (hne : j ≠ i) :
    findProc (updProc s i f) j = findProc s j := by
  rw [findProc_updProc s i j f hf]
  simp [hne]

theorem getRes_setRes_self {s : SimState} {rid : Nat} {r : Res} (r' : Res)
    (h : getRes s rid = some r) :
    getRes (setRes s rid r') rid = some r' := by
  unfold getRes setRes at *
  have hlen : rid < s.resources.length := by
    rcases Nat.lt_or_ge rid s.resources.length with hl | hl
    · exact hl
    · rw [List.get?_eq_none.mpr hl] at h
      cases h
  simp [List.getElem?_set_self', hlen]

theorem findProc_setRes (s : SimState) (rid : Nat) (r : Res) (i : Nat) :
    findProc (setRes s rid r) i = findProc s i := rfl

theorem getRes_updProc (s : SimState) (i : Nat) (f : Proc → Proc) (rid : Nat) :
    getRes (updProc s i f) rid = getRes s rid := rfl

theorem pushLog_log (s : SimState) (e : Event) : (pushLog s e).log = s.log ++ [e] := rfl

theorem pushLog_ticks (s : SimState) (e : Event) : (pushLog s e).ticks = s.ticks := rfl

theorem findProc_pushLog (s : SimState) (e : Event) (i : Nat) :
    findProc (pushLog s e) i = findProc s i := rfl

theorem findProc_pushReady (s : SimState) (i j : Nat) :
    findProc (pushReady s i) j = findProc s j := rfl

theorem getRes_pushReady (s : SimState) (i rid : Nat) :
    getRes (pushReady s i) rid = getRes s rid := rfl

theorem pushReady_readyqueue (s : SimState) (i : Nat) :
    (pushReady s i).readyqueue = s.readyqueue ++ [i] := rfl

theorem queueProcs_nil (s : SimState) : queueProcs s [] = some [] := rfl

theorem queueProcs_cons (s : SimState) (n : Nat) (q : List Nat) :
    queueProcs s (n :: q) =
      (findProc s n).bind (fun p => (queueProcs s q).bind (fun ps => some (p :: ps))) := by
  simp only [queueProcs, List.mapM_cons]
  cases findProc s n with
  | none => rfl
  | some p =>
      cases hq : q.mapM (findProc s) with
      | none => simp [hq]
      | some ps => simp [hq]

theorem queueProcs_cons_some {s : SimState} {n : Nat} {q : List Nat} {ps : List Proc}
    (h : queueProcs s (n :: q) = some ps) :
    ∃ p ps', findProc s n = some p ∧ queueProcs s q = some ps' ∧ ps = p :: ps' := by
  rw [queueProcs_cons] at h
  cases hp : findProc s n with
  | none => rw [hp] at h; cases h
  | some p =>
      rw [hp] at h
      cases hq : queueProcs s q with
      | none => rw [hq] at h; cases h
      | some ps' =>
          rw [hq] at h
          simp at h
          exact ⟨p, ps', rfl, rfl, h.symm⟩

theorem queueProcs_map_pid {s : SimState} :
    ∀ {q : List Nat} {ps : List Proc},
      queueProcs s q = some ps → ps.map Proc.pid = q := by
  intro q
  induction q with
  | nil =>
      intro ps h
      rw [queueProcs_nil] at h
      cases h
      rfl
  | cons n q ih =>
      intro ps h
      obtain ⟨p, ps', hp, hps', rfl⟩ := queueProcs_cons_some h
      simp [findProc_some_pid hp, ih hps']

theorem queueProcs_mem {s : SimState} :
    ∀ {q : List Nat} {ps : List Proc},
      queueProcs s q = some ps → ∀ p ∈ ps, findProc s p.pid = some p := by
  intro q
  induction q with
  | nil =>
      intro ps h
      rw [queueProcs_nil] at h
      cases h
      intro p hp
      cases hp
  | cons n q ih =>
      intro ps h
      obtain ⟨p, ps', hp, hps', rfl⟩ := queueProcs_cons_some h
      intro x hx
      rcases List.mem_cons.mp hx with hx | hx
      · subst hx
        rw [findProc_some_pid hp]
        exact hp
      · exact ih hps' x hx

/-- The maximum-priority fold starting at `m0` is the join of `m0` with
the fold starting at 0. -/
theorem maxPrioOf_eq_max (ps : List Proc) :
    ∀ m0 : Nat, maxPrioOf m0 ps = max m0 (maxPrioOf 0 ps) := by
  induction ps with
  | nil => intro m0; simp [maxPrioOf]
  | cons a l ih =>
      intro m0
      have hstep : ∀ m : Nat, (if m < a.prio then a.prio else m) = max m a.prio := by
        intro m
        rcases Nat.lt_or_ge m a.prio with h | h
        · simp [h, Nat.max_eq_right (Nat.le_of_lt h)]
        · simp [Nat.not_lt.mpr h, Nat.max_eq_left h]
      show maxPrioOf (if m0 < a.prio then a.prio else m0) l
          = max m0 (maxPrioOf (if 0 < a.prio then a.prio else 0) l)
      rw [hstep, hstep]
      rw [ih (max m0 a.prio), ih (max 0 a.prio)]
      simp [Nat.max_assoc]

theorem maxPrioOf_cons (m0 : Nat) (a : Proc) (l : List Proc) :
    maxPrioOf m0 (a :: l) = maxPrioOf (if m0 < a.prio then a.prio else m0) l := rfl

theorem le_maxPrioOf (m0 : Nat) (ps : List Proc) : m0 ≤ maxPrioOf m0 ps := by
  rw [maxPrioOf_eq_max]
  exact Nat.le_max_left _ _

theorem prio_le_maxPrioOf {p : Proc} :
    ∀ {ps : List Proc}, p ∈ ps → ∀ m0, p.prio ≤ maxPrioOf m0 ps := by
  intro ps
  induction ps with
  | nil => intro hp; cases hp
  | cons a l ih =>
      intro hp m0
      rw [maxPrioOf_cons]
      rcases List.mem_cons.mp hp with h | h
      · subst h
        refine Nat.le_trans ?_ (le_maxPrioOf _ _)
        rcases Nat.lt_or_ge m0 p.prio with hlt | hlt
        · simp [hlt]
        · simp [Nat.not_lt.mpr hlt]
          omega
      · exact ih h _

theorem maxPrioOf_attained {ps : List Proc} :
    ∀ m0, maxPrioOf m0 ps = m0 ∨ ∃ p ∈ ps, p.prio = maxPrioOf m0 ps := by
  induction ps with
  | nil => intro m0; left; rfl
  | cons a l ih =>
      intro m0
      rw [maxPrioOf_cons]
      rcases ih (if m0 < a.prio then a.prio else m0) with h | h
      · by_cases hlt : m0 < a.prio
        · right
          refine ⟨a, List.mem_cons_self _ _, ?_⟩
          rw [h]
          simp [hlt]
        · left
          rw [h]
          simp [hlt]
      · right
        obtain ⟨p, hp, hval⟩ := h
        exact ⟨p, List.mem_cons_of_mem _ hp, hval⟩

/-- With a non-empty queue the maximum-priority fold from 0 is attained
by some queue element (priorities are non-negative). -/
theorem maxPrioOf_attained_of_ne_nil {ps : List Proc} (h : ps ≠ []) :
    ∃ p ∈ ps, p.prio = maxPrioOf 0 ps := by
  rcases @maxPrioOf_attained ps 0 with h0 | h0
  · match ps, h with
    | a :: l, _ =>
        refine ⟨a, List.mem_cons_self _ _, ?_⟩
        have := @prio_le_maxPrioOf a (a :: l) (List.mem_cons_self _ _) 0
        omega
  · exact h0

theorem minfold_cons (m0 : Nat) (a : Proc) (l : List Proc) :
    (a :: l).foldl (fun m p => if p.lifespan < m then p.lifespan else m) m0
      = l.foldl (fun m p => if p.lifespan < m then p.lifespan else m)
          (if a.lifespan < m0 then a.lifespan else m0) := rfl

theorem minfold_le_init (ps : List Proc) :
    ∀ m0, ps.foldl (fun m p => if p.lifespan < m then p.lifespan else m) m0 ≤ m0 := by
  induction ps with
  | nil => intro m0; exact Nat.le_refl _
  | cons a l ih =>
      intro m0
      rw [minfold_cons]
      refine Nat.le_trans (ih _) ?_
      rcases Nat.lt_or_ge a.lifespan m0 with hlt | hlt
      · simp [hlt]
        omega
      · simp [Nat.not_lt.mpr hlt]

theorem minfold_le_of_mem {p : Proc} :
    ∀ {ps : List Proc}, p ∈ ps →
      ∀ m0, ps.foldl (fun m p => if p.lifespan < m then p.lifespan else m) m0 ≤ p.lifespan := by
  intro ps
  induction ps with
  | nil => intro hp; cases hp
  | cons a l ih =>
      intro hp m0
      rw [minfold_cons]
      rcases List.mem_cons.mp hp with h | h
      · subst h
        refine Nat.le_trans (minfold_le_init _ _) ?_
        rcases Nat.lt_or_ge p.lifespan m0 with hlt | hlt
        · simp [hlt]
        · simp [Nat.not_lt.mpr hlt]
          omega
      · exact ih h _

theorem minfold_attained (ps : List Proc) :
    ∀ m0, ps.foldl (fun m p => if p.lifespan < m then p.lifespan else m) m0 = m0 ∨
      ∃ p ∈ ps, p.lifespan
        = ps.foldl (fun m p => if p.lifespan < m then p.lifespan else m) m0 := by
  induction ps with
  | nil => intro m0; left; rfl
  | cons a l ih =>
      intro m0
      rw [minfold_cons]
      rcases ih (if a.lifespan < m0 then a.lifespan else m0) with h | h
      · by_cases hlt : a.lifespan < m0
        · right
          refine ⟨a, List.mem_cons_self _ _, ?_⟩
          rw [h]
          simp [hlt]
        · left
          rw [h]
          simp [hlt]
      · right
        obtain ⟨p, hp, hval⟩ := h
        exact ⟨p, List.mem_cons_of_mem _ hp, hval⟩

/-- When every queued lifespan exceeds the sentinel 1000, the minimum
fold of `sjf_schedule` / `srtf_schedule` stays at the sentinel. -/
theorem minLifespan_sentinel {ps : List Proc} (h : ∀ p ∈ ps, 1000 < p.lifespan) :
    minLifespan ps = 1000 := by
  unfold minLifespan
  rcases minfold_attained ps 1000 with h0 | h0
  · exact h0
  · obtain ⟨p, hp, hval⟩ := h0
    have h1 := minfold_le_init ps 1000
    have h2 := h p hp
    omega

/-- When some queued lifespan is within the sentinel, the minimum fold is
attained by a queue element. -/
theorem minLifespan_attained {ps : List Proc} {p0 : Proc} (hp0 : p0 ∈ ps)
    (hle : p0.lifespan ≤ 1000) :
    ∃ p ∈ ps, p.lifespan = minLifespan ps := by
  unfold minLifespan
  rcases minfold_attained ps 1000 with h0 | h0
  · have h1 := minfold_le_of_mem hp0 1000
    exact ⟨p0, hp0, by omega⟩
  · exact h0

/-! ### Claim theorems -/

/-- C3: under the default FCFS protocol, `fcfs_acquire` on a resource with
no owner makes the calling process the owner and returns true; on an
owned resource it sets the caller's status to WAITING, appends it to the
tail of that resource's wait queue, and returns false.  `fcfs_release`
asserts the caller is the owner (the model aborts with `none` otherwise),
clears ownership, and if the wait queue is non-empty wakes exactly the
earliest-queued waiter (the head, i.e. the first process that blocked),
removing it from the wait queue, setting its status to READY and
appending it to the ready-queue tail, so wake order equals blocking
order. -/
theorem C3_fcfs_protocol (s : SimState) (rid cur : Nat) (r : Res) (p : Proc)
    (hcur : s.current = some cur) (hres : getRes s rid = some r)
    (hp : findProc s cur = some p) :
    (r.owner = none → ∃ s1,
      fcfs_acquire s rid = some (s1, true) ∧
      getRes s1 rid = some { owner := some cur, waitqueue := r.waitqueue } ∧
      s1.procs = s.procs ∧ s1.readyqueue = s.readyqueue ∧ s1.forkqueue = s.forkqueue) ∧
    (r.owner.isSome → ∃ s1,
      fcfs_acquire s rid = some (s1, false) ∧
      getRes s1 rid = some { owner := r.owner, waitqueue := r.waitqueue ++ [cur] } ∧
      (findProc s1 cur).map Proc.status = some Status.WAIT ∧
      s1.readyqueue = s.readyqueue) ∧
    (r.owner ≠ some cur → fcfs_release s rid = none) ∧
    (r.owner = some cur → r.waitqueue = [] → ∃ s1,
      fcfs_release s rid = some s1 ∧
      getRes s1 rid = some { owner := none, waitqueue := [] } ∧
      s1.procs = s.procs ∧ s1.readyqueue = s.readyqueue) ∧
    (∀ w rest wp, r.owner = some cur → r.waitqueue = w :: rest →
      findProc s w = some wp → wp.status = Status.WAIT → ∃ s1,
      fcfs_release s rid = some s1 ∧
      getRes s1 rid = some { owner := none, waitqueue := rest } ∧
      (findProc s1 w).map Proc.status = some Status.READY ∧
      s1.readyqueue = s.readyqueue ++ [w]) := by
  refine ⟨?_, ?_, ?_, ?_, ?_⟩
  · intro howner
    refine ⟨setRes s rid { r with owner := some cur }, ?_, ?_, rfl, rfl, rfl⟩
    · simp [fcfs_acquire, hcur, hres, howner]
    · rw [getRes_setRes_self _ hres]
  · intro howner
    obtain ⟨o, ho⟩ := Option.isSome_iff_exists.mp howner
    refine ⟨setRes (updProc s cur (fun p => { p with status := Status.WAIT })) rid
        { r with waitqueue := r.waitqueue ++ [cur] }, ?_, ?_, ?_, rfl⟩
    · simp [fcfs_acquire, hcur, hres, ho]
    · rw [getRes_setRes_self _ (by rw [getRes_updProc]; exact hres)]
    · rw [findProc_setRes,
        findProc_updProc_self s cur (fun p => { p with status := Status.WAIT })
          (fun p => rfl), hp]
      rfl
  · intro howner
    simp [fcfs_release, hcur, hres, howner]
  · intro howner hwq
    refine ⟨setRes s rid { r with owner := none }, ?_, ?_, rfl, rfl⟩
    · simp [fcfs_release, hcur, hres, howner, hwq]
    · rw [getRes_setRes_self _ hres]
      simp [hwq]
  · intro w rest wp howner hwq hw hwst
    refine ⟨{ updProc (setRes s rid { owner := none, waitqueue := rest }) w
        (fun p => { p with status := Status.READY }) with
        readyqueue := s.readyqueue ++ [w] }, ?_, ?_, ?_, rfl⟩
    · simp [fcfs_release, hcur, hres, howner, hwq, hw, hwst]
      rfl
    · exact getRes_setRes_self _ hres
    · have h1 := findProc_updProc_self (setRes s rid { owner := none, waitqueue := rest }) w
        (fun p => { p with status := Status.READY }) (fun p => rfl)
      rw [findProc_setRes, hw] at h1
      show Option.map Proc.status
        (findProc (updProc (setRes s rid { owner := none, waitqueue := rest }) w
          (fun p => { p with status := Status.READY })) w) = some Status.READY
      rw [h1]
      rfl

/-- C3 witness: the theorem applied to a concrete two-process state in
which process 2 owns resource 0 and process 1 is the earliest waiter. -/
theorem C3_fcfs_protocol_witness :
    ∃ s1, fcfs_release fcfsWitState 0 = some s1 ∧
      getRes s1 0 = some { owner := none, waitqueue := [] } ∧
      (findProc s1 1).map Proc.status = some Status.READY ∧
      s1.readyqueue = fcfsWitState.readyqueue ++ [1] := by
  have h := C3_fcfs_protocol fcfsWitState 0 2 { owner := some 2, waitqueue := [1] }
    (mkRec 2 3 1 0 Status.RUNNING [] []) rfl rfl (by decide)
  exact h.2.2.2.2 1 [] (mkRec 1 3 0 0 Status.WAIT [] []) rfl rfl (by decide) rfl

/-- The engine's selection-time assertion `assert(list_empty(&current->list))`:
running a process that is still linked into any queue aborts the tick. -/
theorem runSelected_fail_of_linked (sch : Scheduler) (s : SimState) (cur : Nat)
    (hlink : pidLinked s cur = true) :
    runSelected sch s cur = StepOut.fail := by
  unfold runSelected runGuarded
  rw [show pidLinked (updProc s cur (fun q => { q with status := Status.RUNNING })) cur = true
    from hlink]
  rfl

/-- C4 counterexample: the claimed invariant is false in a reachable
state.  Under the Priority policy, a process whose plan acquires the free
resource 0 and then (still at age 0) the now-owned resource 0 again ends
the first tick linked into the ready queue (from the successful
`prio_acquire`), linked into resource 0's wait queue (from the failed
second `prio_acquire`), and still occupying the running slot — one
process in three of the four places at once. -/
theorem C4_counterexample :
    (stepN prio_scheduler 1 (initState 1 c4Script)).map
      (fun t => (t.current, t.readyqueue, (getRes t 0).map Res.waitqueue))
      = some (some 1, [1], some [1]) := by decide

/-- C4 (amended): the no-multiple-membership invariant does not hold in
every reachable state: a priority-family `acquire` appends the
still-running current process to the ready queue on success and to the
resource's wait queue on a failed second request in the same tick, and
the FCFS `acquire` appends a blocked current process to the wait queue.
What the engine does enforce is detachment at selection time: if the
policy's `schedule` returns a process still linked into the fork queue,
the ready queue or any resource wait queue, the tick aborts on the
`list_empty` assertion before the process runs. -/
theorem C4_selection_assert (sch : Scheduler) (s : SimState) (cur : Nat)
    (hlink : pidLinked s cur = true) :
    runSelected sch s cur = StepOut.fail :=
  runSelected_fail_of_linked sch s cur hlink

/-- C4 witness: the amended theorem applied to a concrete state whose
ready queue still contains the selected pid. -/
theorem C4_selection_assert_witness :
    runSelected fifo_scheduler linkedWitState 1 = StepOut.fail :=
  C4_selection_assert fifo_scheduler linkedWitState 1 (by decide)

/-- C10: when `sjf_schedule` must pick a new process (no current process)
and every ready process's lifespan strictly exceeds the hard-coded
sentinel 1000 used as the initial minimum, the selection scans match
nothing, so the function returns the cursor left by the counting loop —
the last ready process — without detaching it; the engine's subsequent
`assert(list_empty(&current->list))` then fails and the program aborts
(`StepOut.fail`). -/
theorem C10_sjf_sentinel_abort (s : SimState) (ps : List Proc)
    (hcur : s.current = none) (hfork : s.forkqueue = [])
    (hps : queueProcs s s.readyqueue = some ps)
    (hne : s.readyqueue ≠ [])
    (hbig : ∀ p ∈ ps, 1000 < p.lifespan) :
    ∃ l, s.readyqueue.getLast? = some l ∧
      sjf_schedule s = some (s, some l) ∧
      l ∈ s.readyqueue ∧
      step sjf_scheduler s = StepOut.fail := by
  obtain ⟨l, hl⟩ := Option.isSome_iff_exists.mp (List.getLast?_isSome.mpr hne)
  have hlm : l ∈ s.readyqueue := List.mem_of_mem_getLast? (by rw [hl]; rfl)
  have hfind : ps.find? (fun p => p.lifespan = minLifespan ps) = none := by
    refine List.find?_eq_none.mpr ?_
    intro x hx
    have h1 := hbig x hx
    have h2 := minLifespan_sentinel hbig
    simp [h2]
    omega
  have hpsne : ps ≠ [] := by
    intro h
    rw [h] at hps
    have h2 := queueProcs_map_pid hps
    simp at h2
    exact hne h2
  have hempty : ps.isEmpty = false := by
    cases ps with
    | nil => exact absurd rfl hpsne
    | cons a ps' => rfl
  have hpick : sjf_pick s = some (s, some l) := by
    unfold sjf_pick
    rw [hps]
    simp only [Option.bind_eq_bind, Option.some_bind]
    rw [hempty]
    simp only [Bool.false_eq_true, if_false]
    rw [hfind, hl]
    rfl
  have hsched : sjf_schedule s = some (s, some l) := by
    unfold sjf_schedule
    rw [hcur]
    exact hpick
  refine ⟨l, hl, hsched, hlm, ?_⟩
  have hfp : forkPhase sjf_scheduler s = s := by
    unfold forkPhase
    rw [hfork]
    rfl
  rw [show step sjf_scheduler s = stepB sjf_scheduler (forkPhase sjf_scheduler s) from rfl,
    hfp]
  unfold stepB
  rw [show sjf_scheduler.schedule s = some (s, some l) from hsched, hcur]
  exact runSelected_fail_of_linked _ _ _ (by
    simp [pidLinked]
    exact Or.inl (Or.inr hlm))

/-- C10 witness: a single ready process of lifespan 1001 under SJF makes
the very first tick abort. -/
theorem C10_sjf_sentinel_abort_witness :
    ∃ l, c10State.readyqueue.getLast? = some l ∧
      sjf_schedule c10State = some (c10State, some l) ∧
      l ∈ c10State.readyqueue ∧
      step sjf_scheduler c10State = StepOut.fail :=
  C10_sjf_sentinel_abort c10State [mkRec 1 1001 0 0 Status.READY [] []]
    rfl rfl rfl (by decide) (by decide)

theorem updProc_log (s : SimState) (i : Nat) (f : Proc → Proc) :
    (updProc s i f).log = s.log := rfl

theorem pidLinked_updProc (s : SimState) (i j : Nat) (f : Proc → Proc) :
    pidLinked (updProc s i f) j = pidLinked s j := rfl

theorem find?_filter_ne (l : List Proc) (i : Nat) :
    (l.filter (fun q => q.pid ≠ i)).find? (fun q => q.pid = i) = none := by
  refine List.find?_eq_none.mpr ?_
  intro x hx
  have h := (List.mem_filter.mp hx).2
  simp at h ⊢
  exact h

/-- The successful path of `__exit_process`: with all three assertions
satisfied and no `exiting` hook installed, the record is removed from
the registry and the exit event is logged. -/
theorem exitProcess_spec (sch : Scheduler) (s : SimState) (i : Nat) (p : Proc)
    (hex : sch.exiting = none) (hp : findProc s i = some p)
    (hlink : pidLinked s i = false) (hhold : p.holding = []) (hacq : p.to_acquire = []) :
    exitProcess sch s i = some { s with
      procs := s.procs.filter (fun q => q.pid ≠ i),
      log := s.log ++ [Event.exited s.ticks i] } := by
  unfold exitProcess
  rw [hp]
  simp only [Option.bind_eq_bind, Option.some_bind]
  rw [hlink]
  simp [hhold, hacq, hex]

/-- C2: in the retire-previous step of `__do_simulation`, the previous
tick's runner is decommissioned exactly when its age equals its
lifespan: its status is set to EXIT and `__exit_process` fires the
`exiting` hook (absent for all eight policies), logs the exit event at
the current tick — the first tick whose retire step observes
`age = lifespan`, since the record is removed from the registry — and
releases the record; when the age has not reached the lifespan the
process is merely demoted from RUNNING to READY and stays registered,
with no exit event. -/
theorem C2_exit_on_lifespan (sch : Scheduler) (s : SimState) (i : Nat) (p : Proc)
    (hex : sch.exiting = none) (hp : findProc s i = some p) :
    (p.age = p.lifespan → pidLinked s i = false → p.holding = [] → p.to_acquire = [] →
      ∃ s1, retirePrev sch s (some i) = some s1 ∧
        findProc s1 i = none ∧
        s1.log = s.log ++ [Event.exited s.ticks i]) ∧
    (p.age ≠ p.lifespan →
      ∃ s1, retirePrev sch s (some i) = some s1 ∧
        s1.log = s.log ∧
        (p.status = Status.RUNNING →
          findProc s1 i = some { p with status := Status.READY }) ∧
        (p.status ≠ Status.RUNNING → findProc s1 i = some p)) := by
  constructor
  · intro hage hlink hhold hacq
    show ∃ s1, retireOne sch s i = some s1 ∧ _ ∧ _
    unfold retireOne
    rw [hp]
    simp only [Option.bind_eq_bind, Option.some_bind]
    rw [if_pos hage]
    by_cases hrun : p.status = Status.RUNNING
    · rw [if_pos hrun]
      rw [exitProcess_spec sch _ i { p with status := Status.EXIT } hex ?hp2 ?hl2 hhold hacq]
      case hp2 =>
        rw [findProc_updProc_self _ i (fun q => { q with status := Status.EXIT })
          (fun q => rfl)]
        rw [findProc_updProc_self s i (fun q => { q with status := Status.READY })
          (fun q => rfl)]
        rw [hp]
        rfl
      case hl2 =>
        rw [pidLinked_updProc, pidLinked_updProc]
        exact hlink
      refine ⟨_, rfl, ?_, rfl⟩
      show List.find? _ (List.filter _ _) = none
      exact find?_filter_ne _ i
    · rw [if_neg hrun]
      rw [exitProcess_spec sch _ i { p with status := Status.EXIT } hex ?hp2 ?hl2 hhold hacq]
      case hp2 =>
        rw [findProc_updProc_self s i (fun q => { q with status := Status.EXIT })
          (fun q => rfl)]
        rw [hp]
        rfl
      case hl2 =>
        rw [pidLinked_updProc]
        exact hlink
      refine ⟨_, rfl, ?_, rfl⟩
      show List.find? _ (List.filter _ _) = none
      exact find?_filter_ne _ i
  · intro hage
    show ∃ s1, retireOne sch s i = some s1 ∧ _ ∧ _ ∧ _
    unfold retireOne
    rw [hp]
    simp only [Option.bind_eq_bind, Option.some_bind]
    rw [if_neg hage]
    by_cases hrun : p.status = Status.RUNNING
    · rw [if_pos hrun]
      refine ⟨_, rfl, rfl, fun _ => ?_, fun h => absurd hrun h⟩
      rw [findProc_updProc_self s i (fun q => { q with status := Status.READY })
        (fun q => rfl), hp]
      rfl
    · rw [if_neg hrun]
      exact ⟨s, rfl, rfl, fun h => absurd h hrun, fun _ => hp⟩

/-- C2 witness: the theorem applied to a concrete state whose previous
runner has age 3 = lifespan 3. -/
theorem C2_exit_on_lifespan_witness :
    ∃ s1, retirePrev fifo_scheduler c2State (some 1) = some s1 ∧
      findProc s1 1 = none ∧
      s1.log = c2State.log ++ [Event.exited c2State.ticks 1] :=
  (C2_exit_on_lifespan fifo_scheduler c2State 1 (mkRec 1 3 3 0 Status.RUNNING [] [])
    rfl rfl).1 rfl (by decide) rfl rfl

/-- C6: under Round-Robin, on every tick where a process is running with
remaining lifetime (the once-per-tick `ticks_cnt` counter being in sync
with the tick counter, as the engine guarantees) and the ready queue is
non-empty, `rr_schedule` moves the runner to the ready-queue tail and
returns the ready-queue head; with an empty ready queue the runner
continues.  Consequently two processes of lifespan 3 forked at tick 0
run in strict alternation 1, 2, 1, 2, 1, 2 over ticks 0-5. -/
theorem C6_rr_rotation (s : SimState) (cur : Nat) (c : Proc)
    (hcur : s.current = some cur) (hc : findProc s cur = some c)
    (hst : c.status ≠ Status.WAIT) (hage : c.age < c.lifespan)
    (htc : s.ticks_cnt + 1 = (s.ticks : Int)) :
    (∀ n rest, s.readyqueue = n :: rest →
      rr_schedule s = some ({ s with
        ticks_cnt := s.ticks_cnt + 1,
        readyqueue := rest ++ [cur] }, some n)) ∧
    (s.readyqueue = [] →
      rr_schedule s = some ({ s with ticks_cnt := s.ticks_cnt + 1 }, some cur)) ∧
    (finishedLog (runSim rr_scheduler 8 (initState 0 rr2Script))).map runOrder
      = some [(0, 1), (1, 2), (2, 1), (3, 2), (4, 1), (5, 2)] := by
  have hc' : s.procs.find? (fun p => p.pid = cur) = some c := hc
  refine ⟨?_, ?_, ?_⟩
  · intro n rest hq
    simp [rr_schedule, findProc, hcur, hc', hst, hage, htc.symm, hq]
  · intro hq
    simp [rr_schedule, findProc, hcur, hc', hst, hage, htc.symm, hq]
  · decide

/-- C6 witness: at the tick-1 state of the scenario, pid 1 is rotated to
the ready-queue tail and pid 2 runs. -/
theorem C6_rr_rotation_witness :
    rr_schedule c6State = some ({ c6State with
      ticks_cnt := c6State.ticks_cnt + 1,
      readyqueue := [] ++ [1] }, some 2) :=
  (C6_rr_rotation c6State 1 (mkRec 1 3 1 0 Status.RUNNING [] [])
    rfl rfl (by decide) (by decide) (by decide)).1 2 [] rfl

/-- C5: under SRTF, a running non-WAIT process with remaining lifetime is
preempted exactly when some ready process's lifespan is strictly below
the runner's remaining time `lifespan - age` (equivalently, when the
ready minimum is): the first ready process attaining the minimum
lifespan is detached and runs while the preempted runner re-enters the
ready queue (at its head, via `list_add`); otherwise the runner
continues.  The lifespans are assumed within the 1000 sentinel, which
holds for every process the SRTF policy ever lets run.  Consequently,
with a lone runner of lifespan 5 and a lifespan-1 process forked at tick
2, the newcomer runs at tick 2 and the original resumes at tick 3. -/
theorem C5_srtf_preemption (s : SimState) (cur : Nat) (c : Proc) (ps : List Proc)
    (hcur : s.current = some cur) (hc : findProc s cur = some c)
    (hst : c.status ≠ Status.WAIT) (hage : c.age < c.lifespan)
    (hps : queueProcs s s.readyqueue = some ps)
    (hsmall : ∀ p ∈ ps, p.lifespan ≤ 1000) (hcsmall : c.lifespan ≤ 1000) :
    ((∃ q ∈ ps, q.lifespan < c.lifespan - c.age) →
      ∃ p, ps.find? (fun q => q.lifespan = minLifespan ps) = some p ∧
        (∀ q ∈ ps, p.lifespan ≤ q.lifespan) ∧
        p.lifespan < c.lifespan - c.age ∧
        srtf_schedule s
          = some ({ s with readyqueue := cur :: s.readyqueue.erase p.pid }, some p.pid)) ∧
    ((∀ q ∈ ps, ¬ q.lifespan < c.lifespan - c.age) →
      srtf_schedule s = some (s, some cur)) ∧
    (finishedLog (runSim srtf_scheduler 8 (initState 0 srtfScript))).map runOrder
      = some [(0, 1), (1, 1), (2, 2), (3, 1), (4, 1), (5, 1)] := by
  have hc' : s.procs.find? (fun p => p.pid = cur) = some c := hc
  refine ⟨?_, ?_, ?_⟩
  · intro hex
    obtain ⟨q, hq, hqlt⟩ := hex
    obtain ⟨p0, hp0, hp0min⟩ := minLifespan_attained hq (hsmall q hq)
    have hisSome : (ps.find? (fun q => q.lifespan = minLifespan ps)).isSome := by
      rw [List.find?_isSome]
      exact ⟨p0, hp0, by simp [hp0min]⟩
    obtain ⟨sel, hsel⟩ := Option.isSome_iff_exists.mp hisSome
    have hselmin : sel.lifespan = minLifespan ps := by
      have h := List.find?_some hsel
      simpa using h
    have hminle : ∀ q2 ∈ ps, sel.lifespan ≤ q2.lifespan := by
      intro q2 hq2
      rw [hselmin]
      exact minfold_le_of_mem hq2 1000
    have hlt : minLifespan ps < c.lifespan - c.age :=
      Nat.lt_of_le_of_lt (by rw [← hselmin]; exact hminle q hq) hqlt
    refine ⟨sel, hsel, hminle, by rw [hselmin]; exact hlt, ?_⟩
    simp [srtf_schedule, findProc, hcur, hc', hst, hage, hps, hlt, hsel]
  · intro hall
    have hnot : ¬ minLifespan ps < c.lifespan - c.age := by
      cases hps' : ps with
      | nil =>
          show ¬ (1000 : Nat) < c.lifespan - c.age
          omega
      | cons a ps' =>
          rw [← hps']
          obtain ⟨p0, hp0, hp0min⟩ := minLifespan_attained
            (show a ∈ ps by rw [hps']; exact List.mem_cons_self _ _)
            (hsmall a (by rw [hps']; exact List.mem_cons_self _ _))
          rw [← hp0min]
          exact hall p0 hp0
    simp [srtf_schedule, findProc, hcur, hc', hst, hage, hps, hnot]
  · decide

/-- C5 witness: at the tick-2 state of the scenario, pid 2 (lifespan 1)
preempts pid 1 (remaining 3). -/
theorem C5_srtf_preemption_witness :
    ∃ p, [{ mkRec 2 1 0 0 Status.READY [] [] with starts_at := 2 }].find?
        (fun q => q.lifespan
          = minLifespan [{ mkRec 2 1 0 0 Status.READY [] [] with starts_at := 2 }]) = some p ∧
      (∀ q ∈ [{ mkRec 2 1 0 0 Status.READY [] [] with starts_at := 2 }],
        p.lifespan ≤ q.lifespan) ∧
      p.lifespan < 5 - 2 ∧
      srtf_schedule c5State
        = some ({ c5State with readyqueue := 1 :: c5State.readyqueue.erase p.pid },
            some p.pid) :=
  (C5_srtf_preemption c5State 1 (mkRec 1 5 2 0 Status.RUNNING [] [])
    [{ mkRec 2 1 0 0 Status.READY [] [] with starts_at := 2 }]
    rfl rfl (by decide) (by decide) rfl (by decide) (by decide)).1 (by decide)

theorem findProc_work_updProc (s : SimState) (i j : Nat) (f : Proc → Proc)
    (hf : ∀ p, (f p).pid = p.pid)
    (hw : ∀ p, workOf (f p) = workOf p) :
    (findProc (updProc s i f) j).map workOf = (findProc s j).map workOf := by
  rw [findProc_updProc s i j f hf]
  by_cases hj : j = i
  · rw [if_pos hj, hj]
    cases findProc s i with
    | none => rfl
    | some p =>
        show some (workOf (f p)) = some (workOf p)
        rw [hw]
  · rw [if_neg hj]

theorem fcfs_acquire_tame : ∀ s rid t b, fcfs_acquire s rid = some (t, b) →
    t.log = s.log ∧ t.ticks = s.ticks ∧
    ∀ i, (findProc t i).map workOf = (findProc s i).map workOf := by
  intro s rid t b h
  unfold fcfs_acquire at h
  cases hcur : s.current with
  | none => rw [hcur] at h; simp at h
  | some cur =>
      rw [hcur] at h
      simp only [Option.bind_eq_bind, Option.some_bind] at h
      cases hres : getRes s rid with
      | none => rw [hres] at h; simp at h
      | some r =>
          rw [hres] at h
          simp only [Option.bind_eq_bind, Option.some_bind] at h
          cases howner : r.owner with
          | none =>
              rw [howner] at h
              simp at h
              obtain ⟨ht, hb⟩ := h
              subst ht
              exact ⟨rfl, rfl, fun i => rfl⟩
          | some o =>
              rw [howner] at h
              simp at h
              obtain ⟨ht, hb⟩ := h
              subst ht
              refine ⟨rfl, rfl, fun i => ?_⟩
              exact findProc_work_updProc s cur i
                (fun p => { p with status := Status.WAIT }) (fun p => rfl) (fun p => rfl)

theorem prio_acquire_tame : ∀ s rid t b, prio_acquire s rid = some (t, b) →
    t.log = s.log ∧ t.ticks = s.ticks ∧
    ∀ i, (findProc t i).map workOf = (findProc s i).map workOf := by
  intro s rid t b h
  unfold prio_acquire at h
  cases hcur : s.current with
  | none => rw [hcur] at h; simp at h
  | some cur =>
      rw [hcur] at h
      simp only [Option.bind_eq_bind, Option.some_bind] at h
      cases hres : getRes s rid with
      | none => rw [hres] at h; simp at h
      | some r =>
          rw [hres] at h
          simp only [Option.bind_eq_bind, Option.some_bind] at h
          cases howner : r.owner with
          | none =>
              rw [howner] at h
              simp at h
              obtain ⟨ht, hb⟩ := h
              subst ht
              refine ⟨rfl, rfl, fun i => ?_⟩
              exact findProc_work_updProc _ cur i
                (fun p => { p with status := Status.WAIT }) (fun p => rfl) (fun p => rfl)
          | some o =>
              rw [howner] at h
              simp at h
              obtain ⟨ht, hb⟩ := h
              subst ht
              refine ⟨rfl, rfl, fun i => ?_⟩
              exact findProc_work_updProc s cur i
                (fun p => { p with status := Status.WAIT }) (fun p => rfl) (fun p => rfl)

theorem pcp_acquire_tame (maxPrio : Nat) :
    ∀ s rid t b, pcp_acquire maxPrio s rid = some (t, b) →
    t.log = s.log ∧ t.ticks = s.ticks ∧
    ∀ i, (findProc t i).map workOf = (findProc s i).map workOf := by
  intro s rid t b h
  unfold pcp_acquire at h
  cases hcur : s.current with
  | none => rw [hcur] at h; simp at h
  | some cur =>
      rw [hcur] at h
      simp only [Option.bind_eq_bind, Option.some_bind] at h
      cases hres : getRes s rid with
      | none => rw [hres] at h; simp at h
      | some r =>
          rw [hres] at h
          simp only [Option.bind_eq_bind, Option.some_bind] at h
          cases howner : r.owner with
          | none =>
              rw [howner] at h
              simp at h
              obtain ⟨ht, hb⟩ := h
              subst ht
              refine ⟨rfl, rfl, fun i => ?_⟩
              show (findProc (updProc (updProc _ cur _) cur _) i).map workOf = _
              rw [findProc_work_updProc _ cur i
                (fun p => { p with status := Status.WAIT }) (fun p => rfl) (fun p => rfl)]
              exact findProc_work_updProc _ cur i
                (fun p => { p with prio := maxPrio }) (fun p => rfl) (fun p => rfl)
          | some o =>
              rw [howner] at h
              simp at h
              obtain ⟨ht, hb⟩ := h
              subst ht
              refine ⟨rfl, rfl, fun i => ?_⟩
              exact findProc_work_updProc s cur i
                (fun p => { p with status := Status.WAIT }) (fun p => rfl) (fun p => rfl)

theorem pip_acquire_tame : ∀ s rid t b, pip_acquire s rid = some (t, b) →
    t.log = s.log ∧ t.ticks = s.ticks ∧
    ∀ i, (findProc t i).map workOf = (findProc s i).map workOf := by
  intro s rid t b h
  unfold pip_acquire at h
  cases hcur : s.current with
  | none => rw [hcur] at h; simp at h
  | some cur =>
      rw [hcur] at h
      simp only [Option.bind_eq_bind, Option.some_bind] at h
      cases hres : getRes s rid with
      | none => rw [hres] at h; simp at h
      | some r =>
          rw [hres] at h
          simp only [Option.bind_eq_bind, Option.some_bind] at h
          cases howner : r.owner with
          | none =>
              rw [howner] at h
              simp at h
              obtain ⟨ht, hb⟩ := h
              subst ht
              refine ⟨rfl, rfl, fun i => ?_⟩
              exact findProc_work_updProc _ cur i
                (fun p => { p with status := Status.WAIT }) (fun p => rfl) (fun p => rfl)
          | some o =>
              rw [howner] at h
              simp only [Option.bind_eq_bind, Option.some_bind] at h
              cases hop : findProc s o with
              | none => rw [hop] at h; simp at h
              | some op =>
                  rw [hop] at h
                  simp only [Option.bind_eq_bind, Option.some_bind] at h
                  cases hcp : findProc s cur with
                  | none => rw [hcp] at h; simp at h
                  | some cp =>
                      rw [hcp] at h
                      simp at h
                      obtain ⟨ht, hb⟩ := h
                      subst ht
                      by_cases hinh : op.prio < cp.prio
                      · simp only [if_pos hinh]
                        refine ⟨rfl, rfl, fun i => ?_⟩
                        show (findProc (updProc (updProc s o _) cur _) i).map workOf = _
                        rw [findProc_work_updProc _ cur i
                          (fun p => { p with status := Status.WAIT })
                          (fun p => rfl) (fun p => rfl)]
                        exact findProc_work_updProc s o i
                          (fun p => { p with prio := cp.prio }) (fun p => rfl) (fun p => rfl)
                      · simp only [if_neg hinh]
                        refine ⟨rfl, rfl, fun i => ?_⟩
                        exact findProc_work_updProc s cur i
                          (fun p => { p with status := Status.WAIT })
                          (fun p => rfl) (fun p => rfl)

/-- Structure of a failed `__run_current_acquire` loop: the plan splits
at the first due entry whose acquisition fails; the entries before it
that were due have been moved (in order), the other earlier entries are
still pending, and the failing entry and everything after it are left
untouched — no rollback, no further processing. -/
theorem acqLoop_fail (sch : Scheduler) (cur age : Nat) :
    ∀ (pend : List RS) (s t : SimState) (kept moved : List RS),
      acqLoop sch cur age pend s = some (t, kept, moved, false) →
      ∃ pre rs post, pend = pre ++ rs :: post ∧ rs.acq_at = age ∧
        kept = pre.filter (fun e => ¬ e.acq_at = age) ++ rs :: post ∧
        moved = pre.filter (fun e => e.acq_at = age) := by
  intro pend
  induction pend with
  | nil =>
      intro s t kept moved h
      simp [acqLoop] at h
  | cons rs rest ih =>
      intro s t kept moved h
      simp only [acqLoop] at h
      by_cases hat : rs.acq_at = age
      · rw [if_pos hat] at h
        cases hacq : sch.acquire s rs.resource_id with
        | none => rw [hacq] at h; simp at h
        | some rb =>
            obtain ⟨s1, ok⟩ := rb
            rw [hacq] at h
            simp only [Option.bind_eq_bind, Option.some_bind] at h
            cases ok with
            | true =>
                simp only [if_pos rfl] at h
                cases hrec : acqLoop sch cur age rest
                    (pushLog s1 (Event.acquired s1.ticks cur rs.resource_id)) with
                | none => rw [hrec] at h; simp at h
                | some t4 =>
                    obtain ⟨t1, k1, m1, f1⟩ := t4
                    rw [hrec] at h
                    simp at h
                    obtain ⟨ht, hk, hm, hf⟩ := h
                    subst ht hk hm
                    obtain ⟨pre1, rs0, post1, hdec, hat0, hkept, hmoved⟩ :=
                      ih _ _ _ _ (by rw [hrec, hf.symm])
                    refine ⟨rs :: pre1, rs0, post1, by rw [hdec]; simp, hat0, ?_, ?_⟩
                    · rw [hkept]
                      simp [hat]
                    · rw [hmoved]
                      simp [hat]
            | false =>
                simp only [Bool.false_eq_true, if_false] at h
                simp at h
                obtain ⟨ht, hk, hm⟩ := h
                subst ht hk hm
                exact ⟨[], rs, rest, rfl, hat, by simp, by simp⟩
      · rw [if_neg hat] at h
        cases hrec : acqLoop sch cur age rest s with
        | none => rw [hrec] at h; simp at h
        | some t4 =>
            obtain ⟨t1, k1, m1, f1⟩ := t4
            rw [hrec] at h
            simp at h
            obtain ⟨ht, hk, hm, hf⟩ := h
            subst ht hk hm
            obtain ⟨pre1, rs0, post1, hdec, hat0, hkept, hmoved⟩ :=
              ih _ _ _ _ (by rw [hrec, hf.symm])
            refine ⟨rs :: pre1, rs0, post1, by rw [hdec]; simp, hat0, ?_, ?_⟩
            · rw [hkept]
              simp [hat]
            · rw [hmoved]
              simp [hat]

/-- State facts about the `__run_current_acquire` loop under a tame
`acquire`: the tick counter is unchanged, the log is extended by exactly
one acquired event per moved entry (in order), and no process's age,
pending plan or held collection changes. -/
theorem acqLoop_tame (sch : Scheduler)
    (htame : ∀ s rid t b, sch.acquire s rid = some (t, b) →
      t.log = s.log ∧ t.ticks = s.ticks ∧
      ∀ i, (findProc t i).map workOf = (findProc s i).map workOf)
    (cur age : Nat) :
    ∀ (pend : List RS) (s t : SimState) (kept moved : List RS) (ok : Bool),
      acqLoop sch cur age pend s = some (t, kept, moved, ok) →
      t.ticks = s.ticks ∧
      t.log = s.log ++ moved.map (fun rs => Event.acquired s.ticks cur rs.resource_id) ∧
      ∀ i, (findProc t i).map workOf = (findProc s i).map workOf := by
  intro pend
  induction pend with
  | nil =>
      intro s t kept moved ok h
      simp [acqLoop] at h
      obtain ⟨ht, hk, hm, hf⟩ := h
      subst ht hm
      exact ⟨rfl, by simp, fun i => rfl⟩
  | cons rs rest ih =>
      intro s t kept moved ok h
      simp only [acqLoop] at h
      by_cases hat : rs.acq_at = age
      · rw [if_pos hat] at h
        cases hacq : sch.acquire s rs.resource_id with
        | none => rw [hacq] at h; simp at h
        | some rb =>
            obtain ⟨s1, okb⟩ := rb
            rw [hacq] at h
            simp only [Option.bind_eq_bind, Option.some_bind] at h
            obtain ⟨hlog1, hticks1, hwork1⟩ := htame s rs.resource_id s1 okb hacq
            cases okb with
            | true =>
                simp only [if_pos rfl] at h
                cases hrec : acqLoop sch cur age rest
                    (pushLog s1 (Event.acquired s1.ticks cur rs.resource_id)) with
                | none => rw [hrec] at h; simp at h
                | some t4 =>
                    obtain ⟨t1, k1, m1, f1⟩ := t4
                    rw [hrec] at h
                    simp at h
                    obtain ⟨ht, hk, hm, hf⟩ := h
                    subst ht hk hm hf
                    obtain ⟨hta, hlb, hwb⟩ := ih _ _ _ _ _ hrec
                    refine ⟨by rw [hta, pushLog_ticks]; exact hticks1, ?_, ?_⟩
                    · rw [hlb, pushLog_log, pushLog_ticks, hlog1, hticks1]
                      simp
                    · intro i
                      rw [hwb i, findProc_pushLog]
                      exact hwork1 i
            | false =>
                simp only [Bool.false_eq_true, if_false] at h
                simp at h
                obtain ⟨ht, hk, hm, hf⟩ := h
                subst ht hm
                exact ⟨hticks1, by simpa using hlog1, hwork1⟩
      · rw [if_neg hat] at h
        cases hrec : acqLoop sch cur age rest s with
        | none => rw [hrec] at h; simp at h
        | some t4 =>
            obtain ⟨t1, k1, m1, f1⟩ := t4
            rw [hrec] at h
            simp at h
            obtain ⟨ht, hk, hm, hf⟩ := h
            subst ht hk hm hf
            exact ih _ _ _ _ _ hrec

theorem findProc_tickAdvance (s : SimState) (i : Nat) :
    findProc (tickAdvance s) i = findProc s i := rfl

/-- C1: when a selected process runs its tick and some plan entry due at
its current age fails to acquire (the policy's tame `acquire` returns
false), the engine stops iterating the pending entries immediately — the
plan splits at the first failing due entry, whose suffix is untouched,
while the due entries before it stay moved to the held collection (no
rollback) — and the tick ends in the blocked branch: the process's age
is unchanged, no release callback fires (the log gains only the acquired
events of this tick followed by the blocked event), and the tick counter
advances. -/
theorem C1_blocked_no_progress (sch : Scheduler) (htame : AcquireTame sch)
    (s : SimState) (cur : Nat) (p : Proc)
    (hp : findProc s cur = some p)
    (hlink : pidLinked s cur = false)
    (t0 : SimState) (kept moved : List RS)
    (hfail : acqLoop sch cur p.age p.to_acquire
        (updProc s cur (fun q => { q with status := Status.RUNNING }))
        = some (t0, kept, moved, false)) :
    (∃ pre rs post, p.to_acquire = pre ++ rs :: post ∧ rs.acq_at = p.age ∧
      kept = pre.filter (fun e => ¬ e.acq_at = p.age) ++ rs :: post ∧
      moved = pre.filter (fun e => e.acq_at = p.age)) ∧
    (∃ t, runSelected sch s cur = StepOut.next t ∧
      (findProc t cur).map Proc.age = some p.age ∧
      (findProc t cur).map Proc.to_acquire = some kept ∧
      (findProc t cur).map Proc.holding = some (p.holding ++ moved) ∧
      t.log = s.log ++ moved.map (fun rs => Event.acquired s.ticks cur rs.resource_id)
        ++ [Event.blocked s.ticks cur] ∧
      t.ticks = s.ticks + 1) := by
  constructor
  · exact acqLoop_fail sch cur p.age p.to_acquire _ t0 kept moved hfail
  · have hp1 : findProc (updProc s cur (fun q => { q with status := Status.RUNNING })) cur
        = some { p with status := Status.RUNNING } := by
      rw [findProc_updProc_self s cur (fun q => { q with status := Status.RUNNING })
        (fun q => rfl), hp]
      rfl
    have hra : runCurrentAcquire sch
        (updProc s cur (fun q => { q with status := Status.RUNNING })) cur
        = some (updProc t0 cur
            (fun q => { q with to_acquire := kept, holding := q.holding ++ moved }), false) := by
      unfold runCurrentAcquire
      rw [hp1]
      simp only [Option.bind_eq_bind, Option.some_bind]
      rw [show acqLoop sch cur ({ p with status := Status.RUNNING } : Proc).age
          ({ p with status := Status.RUNNING } : Proc).to_acquire
          (updProc s cur (fun q => { q with status := Status.RUNNING }))
          = some (t0, kept, moved, false) from hfail]
      rfl
    have hrs : runSelected sch s cur = StepOut.next (tickAdvance (pushLog
        (updProc t0 cur
          (fun q => { q with to_acquire := kept, holding := q.holding ++ moved }))
        (Event.blocked (updProc t0 cur
          (fun q => { q with to_acquire := kept, holding := q.holding ++ moved })).ticks
          cur))) := by
      unfold runSelected runGuarded
      rw [show pidLinked (updProc s cur (fun q => { q with status := Status.RUNNING })) cur
        = false from hlink]
      simp only [Bool.false_eq_true, if_false]
      rw [hra]
      rfl
    obtain ⟨ht0ticks, ht0log, ht0work⟩ := acqLoop_tame sch htame cur p.age
      p.to_acquire (updProc s cur (fun q => { q with status := Status.RUNNING }))
      t0 kept moved false hfail
    have hwcur := ht0work cur
    rw [hp1] at hwcur
    cases hfp0 : findProc t0 cur with
    | none => rw [hfp0] at hwcur; cases hwcur
    | some p0 =>
        rw [hfp0] at hwcur
        have hw0 : workOf p0 = (p.age, p.to_acquire, p.holding) := by
          simpa [workOf] using hwcur
        have hage0 : p0.age = p.age := by
          have h2 := congrArg (fun x : Nat × List RS × List RS => x.1) hw0
          simpa [workOf] using h2
        have hhold0 : p0.holding = p.holding := by
          have h2 := congrArg (fun x : Nat × List RS × List RS => x.2.2) hw0
          simpa [workOf] using h2
        refine ⟨_, hrs, ?_, ?_, ?_, ?_, ?_⟩
        · rw [findProc_tickAdvance, findProc_pushLog,
            findProc_updProc_self t0 cur
              (fun q => { q with to_acquire := kept, holding := q.holding ++ moved })
              (fun q => rfl), hfp0]
          show some p0.age = some p.age
          rw [hage0]
        · rw [findProc_tickAdvance, findProc_pushLog,
            findProc_updProc_self t0 cur
              (fun q => { q with to_acquire := kept, holding := q.holding ++ moved })
              (fun q => rfl), hfp0]
          rfl
        · rw [findProc_tickAdvance, findProc_pushLog,
            findProc_updProc_self t0 cur
              (fun q => { q with to_acquire := kept, holding := q.holding ++ moved })
              (fun q => rfl), hfp0]
          show some (p0.holding ++ moved) = some (p.holding ++ moved)
          rw [hhold0]
        · show (updProc t0 cur
              (fun q => { q with to_acquire := kept, holding := q.holding ++ moved })).log
            ++ [Event.blocked (updProc t0 cur
              (fun q => { q with to_acquire := kept, holding := q.holding ++ moved })).ticks
              cur] = _
          rw [show (updProc t0 cur
              (fun q => { q with to_acquire := kept, holding := q.holding ++ moved })).log
            = t0.log from rfl]
          rw [show (updProc t0 cur
              (fun q => { q with to_acquire := kept, holding := q.holding ++ moved })).ticks
            = t0.ticks from rfl]
          rw [ht0log, ht0ticks]
          rfl
        · show (updProc t0 cur
              (fun q => { q with to_acquire := kept, holding := q.holding ++ moved })).ticks
            + 1 = s.ticks + 1
          rw [show (updProc t0 cur
              (fun q => { q with to_acquire := kept, holding := q.holding ++ moved })).ticks
            = t0.ticks from rfl]
          rw [ht0ticks]
          rfl

/-- C1 witness: pid 1's acquisition of pid-2-owned resource 0 blocks at
tick 1; the plan entry stays pending, nothing ages, nothing releases. -/
theorem C1_blocked_no_progress_witness :
    (∃ pre rs post, c1Proc.to_acquire = pre ++ rs :: post ∧ rs.acq_at = c1Proc.age ∧
      c1Plan = pre.filter (fun e => ¬ e.acq_at = c1Proc.age) ++ rs :: post ∧
      ([] : List RS) = pre.filter (fun e => e.acq_at = c1Proc.age)) ∧
    (∃ t, runSelected fifo_scheduler c1State 1 = StepOut.next t ∧
      (findProc t 1).map Proc.age = some c1Proc.age ∧
      (findProc t 1).map Proc.to_acquire = some c1Plan ∧
      (findProc t 1).map Proc.holding = some (c1Proc.holding ++ []) ∧
      t.log = c1State.log
        ++ ([] : List RS).map (fun rs => Event.acquired c1State.ticks 1 rs.resource_id)
        ++ [Event.blocked c1State.ticks 1] ∧
      t.ticks = c1State.ticks + 1) :=
  C1_blocked_no_progress fifo_scheduler fcfs_acquire_tame c1State 1 c1Proc
    rfl (by decide) c1Blocked c1Plan [] (by decide)

theorem findProc_mapProcs (s : SimState) (g : Proc → Proc)
    (hg : ∀ p, (g p).pid = p.pid) (j : Nat) :
    findProc { s with procs := s.procs.map g } j = (findProc s j).map g := by
  unfold findProc
  simp only [List.find?_map]
  have hpred : ((fun p => decide (p.pid = j)) ∘ g) = fun p : Proc => decide (p.pid = j) := by
    funext p
    simp [hg]
  rw [hpred]

theorem findProc_prio_updProc (s : SimState) (i j : Nat) (f : Proc → Proc)
    (hf : ∀ p, (f p).pid = p.pid)
    (hw : ∀ p, (f p).prio = p.prio) :
    (findProc (updProc s i f) j).map Proc.prio = (findProc s j).map Proc.prio := by
  rw [findProc_updProc s i j f hf]
  by_cases hj : j = i
  · rw [if_pos hj, hj]
    cases findProc s i with
    | none => rfl
    | some p =>
        show some (f p).prio = some p.prio
        rw [hw]
  · rw [if_neg hj]

theorem queueProcs_append (s : SimState) (q1 q2 : List Nat) :
    queueProcs s (q1 ++ q2)
      = (queueProcs s q1).bind (fun ps1 =>
          (queueProcs s q2).bind (fun ps2 => some (ps1 ++ ps2))) := by
  unfold queueProcs
  rw [List.mapM_append]
  cases q1.mapM (findProc s) with
  | none => rfl
  | some ps1 =>
      cases q2.mapM (findProc s) with
      | none => rfl
      | some ps2 => rfl

theorem queueProcs_updProc_not_mem (s : SimState) (i : Nat) (f : Proc → Proc)
    (hf : ∀ p, (f p).pid = p.pid) :
    ∀ (q : List Nat), ¬ i ∈ q → queueProcs (updProc s i f) q = queueProcs s q := by
  intro q
  induction q with
  | nil => intro _; rfl
  | cons n q ih =>
      intro hmem
      rw [queueProcs_cons, queueProcs_cons]
      rw [findProc_updProc_ne s f hf (fun h => hmem (by rw [h]; exact List.mem_cons_self _ _))]
      rw [ih (fun h => hmem (List.mem_cons_of_mem _ h))]

theorem maxPrioOf_append (m0 : Nat) (l1 l2 : List Proc) :
    maxPrioOf m0 (l1 ++ l2) = maxPrioOf (maxPrioOf m0 l1) l2 := by
  unfold maxPrioOf
  rw [List.foldl_append]

/-- Behaviour of the shared wake path of the priority-family releases:
ownership as passed in `r` is installed, no priority changes, and with a
non-empty wait queue the first waiter attaining the maximum priority is
detached, set READY and appended to the ready-queue tail. -/
theorem wakeMaxWaiter_spec (s : SimState) (rid : Nat) (r r0 : Res)
    (hr0 : getRes s rid = some r0)
    (ws : List Proc) (hws : queueProcs s r.waitqueue = some ws)
    (hwait : ∀ w ∈ ws, w.status = Status.WAIT) :
    ∃ s1, wakeMaxWaiter s rid r = some s1 ∧
      (getRes s1 rid).map Res.owner = some r.owner ∧
      (∀ i, (findProc s1 i).map Proc.prio = (findProc s i).map Proc.prio) ∧
      (r.waitqueue = [] → getRes s1 rid = some r ∧ s1.readyqueue = s.readyqueue) ∧
      (r.waitqueue ≠ [] → ∃ sel,
        ws.find? (fun q => q.prio = maxPrioOf 0 ws) = some sel ∧
        (∀ q ∈ ws, q.prio ≤ sel.prio) ∧
        (findProc s1 sel.pid).map Proc.status = some Status.READY ∧
        s1.readyqueue = s.readyqueue ++ [sel.pid] ∧
        (getRes s1 rid).map Res.waitqueue = some (r.waitqueue.erase sel.pid)) := by
  by_cases hemp : r.waitqueue = []
  · refine ⟨setRes s rid r, ?_, ?_, fun i => rfl, fun _ => ⟨getRes_setRes_self r hr0, rfl⟩,
      fun h => absurd hemp h⟩
    · unfold wakeMaxWaiter
      rw [hemp]
      rfl
    · rw [getRes_setRes_self r hr0]
      rfl
  · have hwsne : ws ≠ [] := by
      intro h
      rw [h] at hws
      have h2 := queueProcs_map_pid hws
      simp at h2
      exact hemp h2
    obtain ⟨p0, hp0, hp0mx⟩ := maxPrioOf_attained_of_ne_nil hwsne
    have hisSome : (ws.find? (fun q => q.prio = maxPrioOf 0 ws)).isSome := by
      rw [List.find?_isSome]
      exact ⟨p0, hp0, by simp [hp0mx]⟩
    obtain ⟨sel, hsel⟩ := Option.isSome_iff_exists.mp hisSome
    have hselmem : sel ∈ ws := List.mem_of_find?_eq_some hsel
    have hselmx : sel.prio = maxPrioOf 0 ws := by simpa using List.find?_some hsel
    have hselst : sel.status = Status.WAIT := hwait sel hselmem
    have hne2 : r.waitqueue.isEmpty = false := by
      cases hq : r.waitqueue with
      | nil => exact absurd hq hemp
      | cons a q => rfl
    have heq : wakeMaxWaiter s rid r = some (pushReady (updProc
        (setRes s rid { r with waitqueue := r.waitqueue.erase sel.pid }) sel.pid
        (fun p => { p with status := Status.READY })) sel.pid) := by
      unfold wakeMaxWaiter
      rw [hne2]
      simp only [Bool.false_eq_true, if_false]
      rw [hws]
      simp only [Option.bind_eq_bind, Option.some_bind]
      rw [hsel]
      simp only [Option.some_bind]
      rw [if_pos hselst]
    have h2 : getRes (updProc
        (setRes s rid { r with waitqueue := r.waitqueue.erase sel.pid }) sel.pid
        (fun p => { p with status := Status.READY })) rid
        = some { r with waitqueue := r.waitqueue.erase sel.pid } := by
      rw [getRes_updProc]
      exact getRes_setRes_self _ hr0
    refine ⟨_, heq, ?_, ?_, fun h => absurd h hemp, fun _ => ⟨sel, hsel, ?_, ?_, ?_, ?_⟩⟩
    · rw [getRes_pushReady, h2]
      rfl
    · intro i
      rw [findProc_pushReady]
      rw [findProc_prio_updProc _ sel.pid i
        (fun p => { p with status := Status.READY }) (fun p => rfl) (fun p => rfl)]
      rfl
    · intro q hq
      rw [hselmx]
      exact prio_le_maxPrioOf hq 0
    · rw [findProc_pushReady]
      rw [findProc_updProc_self _ sel.pid
        (fun p => { p with status := Status.READY }) (fun p => rfl)]
      rw [show findProc (setRes s rid { r with waitqueue := r.waitqueue.erase sel.pid }) sel.pid
        = findProc s sel.pid from rfl]
      rw [queueProcs_mem hws sel hselmem]
      rfl
    · rw [pushReady_readyqueue]
      rfl
    · rw [getRes_pushReady, h2]
      rfl

/-- C8 counterexample: the holder's priority does not stay at the
ceiling while it holds the resource.  With `MAX_PRIO = 10`, a process of
baseline priority 3 acquires resource 0 at tick 0 (its priority becomes
10), but at tick 1 `pcp_schedule` re-selects it from the ready queue and
resets its priority to its baseline 3 — while it still owns resource 0.
So the reachable tick-2 state has owner pid 1 with priority 3 ≠ 10. -/
theorem C8_counterexample :
    (stepN (pcp_scheduler 10) 2 (initState 1 c8Script)).map
      (fun t => ((getRes t 0).map Res.owner, (findProc t 1).map Proc.prio))
      = some (some (some 1), some 3) ∧ (3 : Nat) ≠ 10 := by
  constructor
  · decide
  · decide

/-- C8 (amended): every successful `pcp_acquire` raises the new owner's
priority to `MAX_PRIO`, and `pcp_release` restores the owner's priority
to its original baseline before clearing ownership; however the
priority does not remain at the ceiling for the whole holding period,
because `pcp_schedule` resets the scheduled process's priority to its
baseline, so a holder that is re-scheduled while holding runs at its
baseline priority (see the counterexample). -/
theorem C8_pcp_ceiling (maxPrio : Nat) (s : SimState) (rid : Nat) :
    (∀ cur r p, s.current = some cur → getRes s rid = some r →
      findProc s cur = some p → r.owner = none →
      ∃ s1, pcp_acquire maxPrio s rid = some (s1, true) ∧
        (getRes s1 rid).map Res.owner = some (some cur) ∧
        (findProc s1 cur).map Proc.prio = some maxPrio) ∧
    (∀ cur r p ws, s.current = some cur → getRes s rid = some r →
      r.owner = some cur → findProc s cur = some p → ¬ cur ∈ r.waitqueue →
      queueProcs s r.waitqueue = some ws → (∀ w ∈ ws, w.status = Status.WAIT) →
      ∃ s1, pcp_release s rid = some s1 ∧
        (findProc s1 cur).map Proc.prio = some p.prio_orig ∧
        (getRes s1 rid).map Res.owner = some none) := by
  constructor
  · intro cur r p hcur hres hp howner
    refine ⟨pushReady (updProc (updProc (setRes s rid { r with owner := some cur }) cur
        (fun q => { q with prio := maxPrio })) cur
        (fun q => { q with status := Status.WAIT })) cur, ?_, ?_, ?_⟩
    · unfold pcp_acquire
      rw [hcur]
      simp only [Option.bind_eq_bind, Option.some_bind]
      rw [hres]
      simp only [Option.some_bind]
      rw [howner]
    · rw [getRes_pushReady, getRes_updProc, getRes_updProc, getRes_setRes_self _ hres]
      rfl
    · rw [findProc_pushReady,
        findProc_updProc_self _ cur (fun q => { q with status := Status.WAIT })
          (fun q => rfl),
        findProc_updProc_self _ cur (fun q => { q with prio := maxPrio })
          (fun q => rfl)]
      rw [show findProc (setRes s rid { r with owner := some cur }) cur = findProc s cur
        from rfl]
      rw [hp]
      rfl
  · intro cur r p ws hcur hres howner hp hnin hws hwait
    have hws2 : queueProcs (updProc s cur (fun q => { q with prio := q.prio_orig }))
        ({ r with owner := none } : Res).waitqueue = some ws := by
      show queueProcs (updProc s cur (fun q => { q with prio := q.prio_orig }))
        r.waitqueue = some ws
      rw [queueProcs_updProc_not_mem s cur
        (fun q => { q with prio := q.prio_orig }) (fun q => rfl) r.waitqueue hnin]
      exact hws
    obtain ⟨s1, hwake, howner1, hprio1, hempcase, hnecase⟩ :=
      wakeMaxWaiter_spec (updProc s cur (fun q => { q with prio := q.prio_orig })) rid
        { r with owner := none } r (by rw [getRes_updProc]; exact hres) ws hws2 hwait
    refine ⟨s1, ?_, ?_, ?_⟩
    · unfold pcp_release
      rw [hcur]
      simp only [Option.bind_eq_bind, Option.some_bind]
      rw [hres]
      simp only [Option.some_bind]
      rw [if_pos howner]
      exact hwake
    · rw [hprio1 cur,
        findProc_updProc_self s cur (fun q => { q with prio := q.prio_orig })
          (fun q => rfl), hp]
      rfl
    · rw [howner1]

/-- C8 witness: with `MAX_PRIO = 10`, pid 1 (baseline 3) acquires the
free resource 0 and ends with priority 10. -/
theorem C8_pcp_ceiling_witness :
    ∃ s1, pcp_acquire 10 c8WitState 0 = some (s1, true) ∧
      (getRes s1 0).map Res.owner = some (some 1) ∧
      (findProc s1 1).map Proc.prio = some 10 :=
  (C8_pcp_ceiling 10 c8WitState 0).1 1 { owner := none, waitqueue := [] }
    (mkRec 1 4 0 3 Status.RUNNING [] []) rfl rfl rfl rfl

/-- C9: under the priority-inheritance protocol, a failed `pip_acquire`
raises the owner's priority to the requester's exactly when the owner's
is strictly lower (i.e. the owner ends at the maximum of the two), and
touches no other process's priority — single-level, no propagation
through chains; the requester is set WAITING and appended to the wait
queue.  `pip_release` unconditionally restores the caller's priority to
its original baseline, clears ownership, and then wakes the
highest-priority waiter (first match in scan order) to the ready-queue
tail. -/
theorem C9_pip_inheritance (s : SimState) (rid : Nat) :
    (∀ cur o r op cp, s.current = some cur → getRes s rid = some r →
      r.owner = some o → o ≠ cur →
      findProc s o = some op → findProc s cur = some cp →
      ∃ s1, pip_acquire s rid = some (s1, false) ∧
        (findProc s1 o).map Proc.prio = some (max op.prio cp.prio) ∧
        (∀ i, i ≠ o → (findProc s1 i).map Proc.prio = (findProc s i).map Proc.prio) ∧
        (findProc s1 cur).map Proc.status = some Status.WAIT ∧
        (getRes s1 rid).map Res.waitqueue = some (r.waitqueue ++ [cur])) ∧
    (∀ cur r p ws, s.current = some cur → getRes s rid = some r →
      r.owner = some cur → findProc s cur = some p → ¬ cur ∈ r.waitqueue →
      queueProcs s r.waitqueue = some ws → (∀ w ∈ ws, w.status = Status.WAIT) →
      ∃ s1, pip_release s rid = some s1 ∧
        (findProc s1 cur).map Proc.prio = some p.prio_orig ∧
        (getRes s1 rid).map Res.owner = some none ∧
        (ws ≠ [] → ∃ sel, ws.find? (fun q => q.prio = maxPrioOf 0 ws) = some sel ∧
          (∀ q ∈ ws, q.prio ≤ sel.prio) ∧
          (findProc s1 sel.pid).map Proc.status = some Status.READY ∧
          s1.readyqueue = s.readyqueue ++ [sel.pid])) := by
  constructor
  · intro cur o r op cp hcur hres howner hoc hop hcp
    refine ⟨setRes (updProc
        (if op.prio < cp.prio then updProc s o (fun q => { q with prio := cp.prio }) else s)
        cur (fun q => { q with status := Status.WAIT })) rid
        { r with waitqueue := r.waitqueue ++ [cur] }, ?_, ?_, ?_, ?_, ?_⟩
    · unfold pip_acquire
      rw [hcur]
      simp only [Option.bind_eq_bind, Option.some_bind]
      rw [hres]
      simp only [Option.some_bind]
      rw [howner]
      simp only [Option.bind_eq_bind, Option.some_bind]
      rw [hop]
      simp only [Option.some_bind]
      rw [hcp]
      simp only [Option.some_bind]
    · rw [findProc_setRes]
      rw [findProc_prio_updProc _ cur o
        (fun q => { q with status := Status.WAIT }) (fun q => rfl) (fun q => rfl)]
      by_cases hinh : op.prio < cp.prio
      · rw [if_pos hinh]
        rw [show (findProc (updProc s o (fun q => { q with prio := cp.prio })) o)
          = (findProc s o).map (fun q => { q with prio := cp.prio })
          from findProc_updProc_self s o _ (fun q => rfl)]
        rw [hop]
        show some cp.prio = some (max op.prio cp.prio)
        rw [Nat.max_eq_right (Nat.le_of_lt hinh)]
      · rw [if_neg hinh]
        rw [hop]
        show some op.prio = some (max op.prio cp.prio)
        rw [Nat.max_eq_left (Nat.not_lt.mp hinh)]
    · intro i hio
      rw [findProc_setRes]
      rw [findProc_prio_updProc _ cur i
        (fun q => { q with status := Status.WAIT }) (fun q => rfl) (fun q => rfl)]
      by_cases hinh : op.prio < cp.prio
      · rw [if_pos hinh]
        rw [findProc_updProc_ne s (fun q => { q with prio := cp.prio }) (fun q => rfl) hio]
      · rw [if_neg hinh]
    · rw [findProc_setRes]
      rw [findProc_updProc_self _ cur
        (fun q => { q with status := Status.WAIT }) (fun q => rfl)]
      by_cases hinh : op.prio < cp.prio
      · rw [if_pos hinh]
        rw [findProc_updProc_ne s (fun q => { q with prio := cp.prio })
          (fun q => rfl) (fun h => hoc h.symm)]
        rw [hcp]
        rfl
      · rw [if_neg hinh]
        rw [hcp]
        rfl
    · have hres2 : getRes (updProc
          (if op.prio < cp.prio then updProc s o (fun q => { q with prio := cp.prio }) else s)
          cur (fun q => { q with status := Status.WAIT })) rid = some r := by
        rw [getRes_updProc]
        by_cases hinh : op.prio < cp.prio
        · rw [if_pos hinh, getRes_updProc]
          exact hres
        · rw [if_neg hinh]
          exact hres
      rw [getRes_setRes_self _ hres2]
      rfl
  · intro cur r p ws hcur hres howner hp hnin hws hwait
    have hws2 : queueProcs (updProc s cur (fun q => { q with prio := q.prio_orig }))
        ({ r with owner := none } : Res).waitqueue = some ws := by
      show queueProcs (updProc s cur (fun q => { q with prio := q.prio_orig }))
        r.waitqueue = some ws
      rw [queueProcs_updProc_not_mem s cur
        (fun q => { q with prio := q.prio_orig }) (fun q => rfl) r.waitqueue hnin]
      exact hws
    obtain ⟨s1, hwake, howner1, hprio1, hempcase, hnecase⟩ :=
      wakeMaxWaiter_spec (updProc s cur (fun q => { q with prio := q.prio_orig })) rid
        { r with owner := none } r (by rw [getRes_updProc]; exact hres) ws hws2 hwait
    refine ⟨s1, ?_, ?_, ?_, ?_⟩
    · unfold pip_release
      rw [hcur]
      simp only [Option.bind_eq_bind, Option.some_bind]
      rw [hres]
      simp only [Option.some_bind]
      rw [if_pos howner]
      exact hwake
    · rw [hprio1 cur,
        findProc_updProc_self s cur (fun q => { q with prio := q.prio_orig })
          (fun q => rfl), hp]
      rfl
    · rw [howner1]
    · intro hwsne
      have hqne : ({ r with owner := none } : Res).waitqueue ≠ [] := by
        show r.waitqueue ≠ []
        intro h
        rw [h] at hws
        have h2 := queueProcs_map_pid hws
        apply hwsne
        cases ws with
        | nil => rfl
        | cons a l => simp at h2
      obtain ⟨sel, hsel, hmax, hst, hready, hwq⟩ := hnecase hqne
      exact ⟨sel, hsel, hmax, hst, hready⟩

/-- C9 witness: pid 2 (priority 5) fails to acquire resource 0 owned by
pid 1 (priority 1); the owner inherits priority 5 = max 1 5 and pid 2 is
queued. -/
theorem C9_pip_inheritance_witness :
    ∃ s1, pip_acquire c9State 0 = some (s1, false) ∧
      (findProc s1 1).map Proc.prio = some (max 1 5) ∧
      (∀ i, i ≠ 1 → (findProc s1 i).map Proc.prio = (findProc c9State i).map Proc.prio) ∧
      (findProc s1 2).map Proc.status = some Status.WAIT ∧
      (getRes s1 0).map Res.waitqueue = some ([] ++ [2]) :=
  (C9_pip_inheritance c9State 0).1 2 1 { owner := some 1, waitqueue := [] }
    (mkRec 1 5 1 1 Status.READY [] []) (mkRec 2 5 0 5 Status.RUNNING [] [])
    rfl rfl rfl (by decide) rfl rfl

/-! ### Priority + aging: pick and aging lemmas -/

theorem bumpPrio_pid (maxPrio : Nat) (p : Proc) : (bumpPrio maxPrio p).pid = p.pid := by
  unfold bumpPrio
  split
  · rfl
  · rfl

theorem findProc_agingBump (maxPrio selPid : Nat) (s : SimState) (j : Nat) :
    findProc (agingBump maxPrio selPid s) j
      = (findProc s j).map (fun p =>
          if p.pid ≠ selPid ∧ s.readyqueue.contains p.pid then bumpPrio maxPrio p else p) := by
  unfold agingBump
  exact findProc_mapProcs s
    (fun p => if p.pid ≠ selPid ∧ s.readyqueue.contains p.pid then bumpPrio maxPrio p else p)
    (fun p => by
      show (if p.pid ≠ selPid ∧ s.readyqueue.contains p.pid
        then bumpPrio maxPrio p else p).pid = p.pid
      by_cases h : p.pid ≠ selPid ∧ s.readyqueue.contains p.pid
      · rw [if_pos h]
        exact bumpPrio_pid maxPrio p
      · rw [if_neg h]) j

theorem findProc_agingAll (maxPrio : Nat) (s : SimState) (j : Nat) :
    findProc (agingAll maxPrio s) j
      = (findProc s j).map (fun p =>
          if s.readyqueue.contains p.pid then bumpPrio maxPrio p else p) := by
  unfold agingAll
  exact findProc_mapProcs s
    (fun p => if s.readyqueue.contains p.pid then bumpPrio maxPrio p else p)
    (fun p => by
      show (if s.readyqueue.contains p.pid then bumpPrio maxPrio p else p).pid = p.pid
      by_cases h : s.readyqueue.contains p.pid
      · rw [if_pos h]
        exact bumpPrio_pid maxPrio p
      · rw [if_neg h]) j

theorem eraseReady_readyqueue (s : SimState) (i : Nat) :
    (eraseReady s i).readyqueue = s.readyqueue.erase i := rfl

theorem findProc_eraseReady (s : SimState) (i j : Nat) :
    findProc (eraseReady s i) j = findProc s j := rfl

theorem queueProcs_pushReady (s : SimState) (i : Nat) (q : List Nat) :
    queueProcs (pushReady s i) q = queueProcs s q := rfl

/-- Behaviour of the `pick_next` tail under a maximum accumulator `m0`
that does not exceed the ready maximum: the first ready process
attaining the maximum priority is selected and detached with its
priority reset to its original value, and every other process linked in
the ready queue ages by one, capped at `maxPrio`. -/
theorem pa_pick_spec (maxPrio m0 : Nat) (s : SimState) (ps : List Proc)
    (hps : queueProcs s s.readyqueue = some ps) (hne : ps ≠ [])
    (hm0 : m0 ≤ maxPrioOf 0 ps) :
    ∃ s1 sel, pa_pick maxPrio m0 s = some (s1, some sel.pid) ∧
      ps.find? (fun p => p.prio = maxPrioOf 0 ps) = some sel ∧
      sel ∈ ps ∧ sel.prio = maxPrioOf 0 ps ∧
      (findProc s1 sel.pid).map Proc.prio = some sel.prio_orig ∧
      (∀ q : Proc, findProc s q.pid = some q → q.pid ≠ sel.pid →
        q.pid ∈ s.readyqueue →
        (findProc s1 q.pid).map Proc.prio = some (bumpPrio maxPrio q).prio) ∧
      s1.readyqueue = s.readyqueue.erase sel.pid := by
  have hmx : maxPrioOf m0 ps = maxPrioOf 0 ps := by
    rw [maxPrioOf_eq_max]
    exact Nat.max_eq_right hm0
  obtain ⟨p0, hp0, hp0mx⟩ := maxPrioOf_attained_of_ne_nil hne
  have hisSome : (ps.find? (fun p => p.prio = maxPrioOf m0 ps)).isSome := by
    rw [List.find?_isSome]
    exact ⟨p0, hp0, by simp [hp0mx, hmx]⟩
  obtain ⟨sel, hsel⟩ := Option.isSome_iff_exists.mp hisSome
  have hselmem : sel ∈ ps := List.mem_of_find?_eq_some hsel
  have hselmx : sel.prio = maxPrioOf 0 ps := by
    have := List.find?_some hsel
    simpa [hmx] using this
  have hemp : ps.isEmpty = false := by
    cases hq : ps with
    | nil => exact absurd hq hne
    | cons a l => rfl
  have hselfind : findProc s sel.pid = some sel := queueProcs_mem hps sel hselmem
  have heq : pa_pick maxPrio m0 s = some
      (updProc (eraseReady (agingBump maxPrio sel.pid s) sel.pid) sel.pid
        (fun p => { p with prio := p.prio_orig }), some sel.pid) := by
    unfold pa_pick
    rw [hps]
    simp only [Option.bind_eq_bind, Option.some_bind]
    rw [hemp]
    simp only [Bool.false_eq_true, if_false]
    rw [hsel]
    simp only [Option.some_bind]
  have hsel0 : ps.find? (fun p => p.prio = maxPrioOf 0 ps) = some sel := by
    rw [hmx] at hsel
    exact hsel
  refine ⟨_, sel, heq, hsel0, hselmem, hselmx, ?_, ?_, rfl⟩
  · rw [findProc_updProc_self _ sel.pid (fun p => { p with prio := p.prio_orig })
      (fun p => rfl)]
    rw [findProc_eraseReady, findProc_agingBump, hselfind]
    simp
  · intro q hq hqne hqmem
    rw [findProc_updProc_ne _ (fun p => { p with prio := p.prio_orig }) (fun p => rfl) hqne]
    rw [findProc_eraseReady, findProc_agingBump, hq]
    simp [hqne, hqmem]

/-- C7: under Priority+Aging, (i) a running current process is preempted
whenever some ready priority is at least its own: the first ready
process attaining the maximum is chosen with its priority reset to its
baseline, the preempted runner re-enters the ready queue, and every
ready process not selected — the old runner included — ages by one,
capped at `maxPrio`; (ii) when every ready priority is strictly below
the runner's, the runner continues with its priority reset to its
baseline and every ready process ages by one, capped; (iii) with no
current process the same aging pick runs on the ready queue. -/
theorem C7_pa_aging (maxPrio : Nat) :
    (∀ (s : SimState) (cur : Nat) (c : Proc) (ps : List Proc),
      s.current = some cur → findProc s cur = some c →
      c.status ≠ Status.WAIT → c.age < c.lifespan →
      queueProcs s s.readyqueue = some ps →
      cur ∉ s.readyqueue →
      (∃ q ∈ ps, c.prio ≤ q.prio) →
      ∃ s1 sel, pa_schedule maxPrio s = some (s1, some sel.pid) ∧
        sel ∈ ps ∧ sel.prio = maxPrioOf 0 ps ∧ sel.pid ≠ cur ∧
        cur ∈ s1.readyqueue ∧
        (findProc s1 sel.pid).map Proc.prio = some sel.prio_orig ∧
        (findProc s1 cur).map Proc.prio = some (bumpPrio maxPrio c).prio ∧
        (∀ q ∈ ps, q.pid ≠ sel.pid →
          (findProc s1 q.pid).map Proc.prio = some (bumpPrio maxPrio q).prio)) ∧
    (∀ (s : SimState) (cur : Nat) (c : Proc) (ps : List Proc),
      s.current = some cur → findProc s cur = some c →
      c.status ≠ Status.WAIT → c.age < c.lifespan →
      queueProcs s s.readyqueue = some ps →
      cur ∉ s.readyqueue →
      (∀ q ∈ ps, q.prio < c.prio) →
      ∃ s1, pa_schedule maxPrio s = some (s1, some cur) ∧
        (findProc s1 cur).map Proc.prio = some c.prio_orig ∧
        (∀ q ∈ ps, (findProc s1 q.pid).map Proc.prio = some (bumpPrio maxPrio q).prio)) ∧
    (∀ (s : SimState) (ps : List Proc),
      s.current = none → queueProcs s s.readyqueue = some ps → ps ≠ [] →
      ∃ s1 sel, pa_schedule maxPrio s = some (s1, some sel.pid) ∧
        sel ∈ ps ∧ sel.prio = maxPrioOf 0 ps ∧
        (findProc s1 sel.pid).map Proc.prio = some sel.prio_orig ∧
        (∀ q ∈ ps, q.pid ≠ sel.pid →
          (findProc s1 q.pid).map Proc.prio = some (bumpPrio maxPrio q).prio) ∧
        s1.readyqueue = s.readyqueue.erase sel.pid) := by
  refine ⟨?_, ?_, ?_⟩
  · intro s cur c ps hcur hc hst hage hps hnin hpre
    have hcpid : c.pid = cur := findProc_some_pid hc
    have hpsne : ps ≠ [] := by
      obtain ⟨q, hq, _⟩ := hpre
      intro h
      rw [h] at hq
      cases hq
    have hemp : ps.isEmpty = false := by
      cases hq : ps with
      | nil => exact absurd hq hpsne
      | cons a l => rfl
    obtain ⟨q0, hq0, hq0le⟩ := hpre
    have hle : c.prio ≤ maxPrioOf 0 ps :=
      Nat.le_trans hq0le (prio_le_maxPrioOf hq0 0)
    have hts : pa_schedule maxPrio s = pa_cur maxPrio s cur := by
      unfold pa_schedule
      rw [hcur]
    have hroute : pa_schedule maxPrio s
        = pa_pick maxPrio (maxPrioOf 0 ps) (pushReady s cur) := by
      rw [hts]
      unfold pa_cur
      rw [hc]
      simp only [Option.bind_eq_bind, Option.some_bind]
      rw [if_neg hst, if_pos hage, hps]
      simp only [Option.some_bind]
      rw [hemp]
      simp only [Bool.false_eq_true, if_false]
      rw [if_pos hle]
    have hps2 : queueProcs (pushReady s cur) (pushReady s cur).readyqueue
        = some (ps ++ [c]) := by
      rw [pushReady_readyqueue, queueProcs_pushReady, queueProcs_append, hps,
        queueProcs_cons, hc, queueProcs_nil]
      rfl
    have hpsne2 : ps ++ [c] ≠ [] := by simp
    have hm0le : maxPrioOf 0 ps ≤ maxPrioOf 0 (ps ++ [c]) := by
      rw [maxPrioOf_append]
      exact le_maxPrioOf _ _
    have hmx2 : maxPrioOf 0 (ps ++ [c]) = maxPrioOf 0 ps := by
      rw [maxPrioOf_append, maxPrioOf_cons]
      show (if maxPrioOf 0 ps < c.prio then c.prio else maxPrioOf 0 ps) = maxPrioOf 0 ps
      rw [if_neg (Nat.not_lt.mpr hle)]
    obtain ⟨s1, sel, hpick, hselfind2, hselmem2, hselmx2, hselprio, hbump, hready⟩ :=
      pa_pick_spec maxPrio (maxPrioOf 0 ps) (pushReady s cur) (ps ++ [c]) hps2 hpsne2 hm0le
    rw [hmx2] at hselfind2 hselmx2
    obtain ⟨p0, hp0, hp0mx⟩ := maxPrioOf_attained_of_ne_nil hpsne
    have hfpsSome : (ps.find? (fun p => p.prio = maxPrioOf 0 ps)).isSome := by
      rw [List.find?_isSome]
      exact ⟨p0, hp0, by simp [hp0mx]⟩
    obtain ⟨selps, hselps⟩ := Option.isSome_iff_exists.mp hfpsSome
    have hlift : (ps ++ [c]).find? (fun p => p.prio = maxPrioOf 0 ps) = some selps := by
      rw [List.find?_append, hselps]
      rfl
    have hseleq : sel = selps := by
      rw [hlift] at hselfind2
      cases hselfind2
      rfl
    have hselps2 : sel ∈ ps := by
      rw [hseleq]
      exact List.mem_of_find?_eq_some hselps
    have hselpid_mem : sel.pid ∈ s.readyqueue := by
      rw [(queueProcs_map_pid hps).symm]
      exact List.mem_map_of_mem Proc.pid hselps2
    have hselne : sel.pid ≠ cur := by
      intro h
      rw [h] at hselpid_mem
      exact hnin hselpid_mem
    refine ⟨s1, sel, by rw [hroute]; exact hpick, hselps2, hselmx2, hselne, ?_, hselprio,
      ?_, ?_⟩
    · rw [hready, pushReady_readyqueue]
      rw [List.mem_erase_of_ne (fun h => hselne h.symm)]
      exact List.mem_append_right _ (List.mem_cons_self _ _)
    · have hfc : findProc (pushReady s cur) c.pid = some c := by
        rw [findProc_pushReady, hcpid]
        exact hc
      have hcne : c.pid ≠ sel.pid := by
        rw [hcpid]
        exact fun h => hselne h.symm
      have hcmem : c.pid ∈ (pushReady s cur).readyqueue := by
        rw [pushReady_readyqueue, hcpid]
        exact List.mem_append_right _ (List.mem_cons_self _ _)
      have := hbump c hfc hcne hcmem
      rw [hcpid] at this
      exact this
    · intro q hq hqne
      have hfq : findProc (pushReady s cur) q.pid = some q := by
        rw [findProc_pushReady]
        exact queueProcs_mem hps q hq
      have hqmem : q.pid ∈ (pushReady s cur).readyqueue := by
        rw [pushReady_readyqueue]
        refine List.mem_append_left _ ?_
        rw [(queueProcs_map_pid hps).symm]
        exact List.mem_map_of_mem Proc.pid hq
      exact hbump q hfq hqne hqmem
  · intro s cur c ps hcur hc hst hage hps hnin hlt
    have hcpid : c.pid = cur := findProc_some_pid hc
    have hts : pa_schedule maxPrio s = pa_cur maxPrio s cur := by
      unfold pa_schedule
      rw [hcur]
    by_cases hpse : ps = []
    · subst hpse
      have heq : pa_schedule maxPrio s
          = some (updProc s cur (fun p => { p with prio := p.prio_orig }), some cur) := by
        rw [hts]
        unfold pa_cur
        rw [hc]
        simp only [Option.bind_eq_bind, Option.some_bind]
        rw [if_neg hst, if_pos hage, hps]
        simp only [Option.some_bind]
        rfl
      refine ⟨_, heq, ?_, ?_⟩
      · rw [findProc_updProc_self _ cur (fun p => { p with prio := p.prio_orig })
          (fun p => rfl), hc]
        rfl
      · intro q hq
        cases hq
    · have hemp : ps.isEmpty = false := by
        cases hq : ps with
        | nil => exact absurd hq hpse
        | cons a l => rfl
      have hnotle : ¬ c.prio ≤ maxPrioOf 0 ps := by
        obtain ⟨p0, hp0, hp0mx⟩ := maxPrioOf_attained_of_ne_nil hpse
        have := hlt p0 hp0
        omega
      have heq : pa_schedule maxPrio s
          = some (updProc (agingAll maxPrio s) cur
              (fun p => { p with prio := p.prio_orig }), some cur) := by
        rw [hts]
        unfold pa_cur
        rw [hc]
        simp only [Option.bind_eq_bind, Option.some_bind]
        rw [if_neg hst, if_pos hage, hps]
        simp only [Option.some_bind]
        rw [hemp]
        simp only [Bool.false_eq_true, if_false]
        rw [if_neg hnotle]
      have hcnotready : ¬ c.pid ∈ s.readyqueue := by
        rw [hcpid]
        exact hnin
      refine ⟨_, heq, ?_, ?_⟩
      · rw [findProc_updProc_self _ cur (fun p => { p with prio := p.prio_orig })
          (fun p => rfl)]
        rw [findProc_agingAll, hc]
        simp [hcnotready]
      · intro q hq
        have hqpid_mem : q.pid ∈ s.readyqueue := by
          rw [(queueProcs_map_pid hps).symm]
          exact List.mem_map_of_mem Proc.pid hq
        have hqne : q.pid ≠ cur := by
          intro h
          rw [h] at hqpid_mem
          exact hnin hqpid_mem
        rw [findProc_updProc_ne _ (fun p => { p with prio := p.prio_orig })
          (fun p => rfl) hqne]
        rw [findProc_agingAll, queueProcs_mem hps q hq]
        simp [hqpid_mem]
  · intro s ps hcur hps hne
    have hts : pa_schedule maxPrio s = pa_pick maxPrio 0 s := by
      unfold pa_schedule
      rw [hcur]
    obtain ⟨s1, sel, hpick, _, hselmem, hselmx, hselprio, hbump, hready⟩ :=
      pa_pick_spec maxPrio 0 s ps hps hne (Nat.zero_le _)
    refine ⟨s1, sel, by rw [hts]; exact hpick, hselmem, hselmx, hselprio, ?_, hready⟩
    intro q hq hqne
    have hfq : findProc s q.pid = some q := queueProcs_mem hps q hq
    have hqmem : q.pid ∈ s.readyqueue := by
      rw [(queueProcs_map_pid hps).symm]
      exact List.mem_map_of_mem Proc.pid hq
    exact hbump q hfq hqne hqmem

/-- C7 witness: in `c7State` (runner pid 1 of priority 2, ready pids 2
and 3 of priorities 3 and 1, `MAX_PRIO = 10`) the runner is preempted by
pid 2, re-enters the ready queue, pid 2's priority is reset to its
baseline, and the non-selected processes age by one. -/
theorem C7_pa_aging_witness :
    ∃ s1 sel, pa_schedule 10 c7State = some (s1, some sel.pid) ∧
      sel ∈ [mkRec 2 5 0 3 Status.READY [] [], mkRec 3 5 0 1 Status.READY [] []] ∧
      sel.prio = maxPrioOf 0 [mkRec 2 5 0 3 Status.READY [] [],
        mkRec 3 5 0 1 Status.READY [] []] ∧
      sel.pid ≠ 1 ∧
      1 ∈ s1.readyqueue ∧
      (findProc s1 sel.pid).map Proc.prio = some sel.prio_orig ∧
      (findProc s1 1).map Proc.prio
        = some (bumpPrio 10 (mkRec 1 5 1 2 Status.RUNNING [] [])).prio ∧
      (∀ q ∈ [mkRec 2 5 0 3 Status.READY [] [], mkRec 3 5 0 1 Status.READY [] []],
        q.pid ≠ sel.pid →
        (findProc s1 q.pid).map Proc.prio = some (bumpPrio 10 q).prio) :=
  (C7_pa_aging 10).1 c7State 1 (mkRec 1 5 1 2 Status.RUNNING [] [])
    [mkRec 2 5 0 3 Status.READY [] [], mkRec 3 5 0 1 Status.READY [] []]
    (by decide) (by decide) (by decide) (by decide) (by decide) (by decide)
    ⟨mkRec 2 5 0 3 Status.READY [] [], by decide, by decide⟩

end Sched
